import Mathlib

/-!
Verification development for the camera-framing and camera-animation core of
the `bevy_panorbit_camera_ext` repository (`src/fit.rs`, `src/support.rs`,
`src/animation.rs`).

Modelling conventions:

* `f32` values are modelled by the type `F`: an exact rational (`F.fin q`)
  or one of the IEEE-754 special values `+inf`, `-inf`, `nan`.  Arithmetic
  follows the IEEE-754 special-value rules exactly; rounding of finite
  results is abstracted away (finite arithmetic is exact rational
  arithmetic).  Decimal literals of the source (`0.1`, `0.001`, ...) are
  modelled by the corresponding exact rationals; the `f32` constants
  `PI`/`TAU` are modelled by their exact `f32` bit values
  (`TAU` is exactly `2 * PI` in `f32`).
* `f32::sqrt` is transcendental; `ratSqrt` models it exactly on perfect
  squares of rationals and by a fixed-precision approximation elsewhere.
  Theorems never depend on the approximate branch.
* `tan` and `atan2` are transcendental; the development is parametrised by
  a `TransFuns` record carrying them, and every theorem quantifies over it,
  so each theorem holds in particular for the true `f32` functions.
* Quaternions built by `Quat::from_euler(YXZ, yaw, -pitch, 0)` enter the
  algorithms only through their action on the basis vectors `X`, `Y`, `Z`
  (`rot * Vec3::X`, `rot * Vec3::Y`, `rot * Vec3::new(0,0,d) = d * (rot *
  Vec3::Z)`, `rot * Vec3::NEG_Z = -(rot * Vec3::Z)`).  The model therefore
  represents a rotation by the record `CamBasis` of those three rotated
  axes, and quantification over `yaw`/`pitch` becomes quantification over
  the induced basis.
-/

namespace POC

/-- Model of an `f32` value: an exact rational or an IEEE special value. -/
inductive F where
  | fin (q : ℚ)
  | inf
  | ninf
  | nan
deriving DecidableEq

/-- IEEE negation. -/
def F.neg : F → F
  | .fin q => .fin (-q)
  | .inf => .ninf
  | .ninf => .inf
  | .nan => .nan

/-- IEEE addition (exact on finite operands). -/
def F.add : F → F → F
  | .nan, _ => .nan
  | _, .nan => .nan
  | .fin a, .fin b => .fin (a + b)
  | .fin _, .inf => .inf
  | .fin _, .ninf => .ninf
  | .inf, .ninf => .nan
  | .inf, _ => .inf
  | .ninf, .inf => .nan
  | .ninf, _ => .ninf

/-- IEEE subtraction, `a - b = a + (-b)`. -/
def F.sub (a b : F) : F := F.add a (F.neg b)

/-- IEEE multiplication (exact on finite operands; `0 * inf = nan`). -/
def F.mul : F → F → F
  | .nan, _ => .nan
  | _, .nan => .nan
  | .fin a, .fin b => .fin (a * b)
  | .fin a, .inf => if 0 < a then .inf else if a < 0 then .ninf else .nan
  | .fin a, .ninf => if 0 < a then .ninf else if a < 0 then .inf else .nan
  | .inf, .fin b => if 0 < b then .inf else if b < 0 then .ninf else .nan
  | .ninf, .fin b => if 0 < b then .ninf else if b < 0 then .inf else .nan
  | .inf, .inf => .inf
  | .inf, .ninf => .ninf
  | .ninf, .inf => .ninf
  | .ninf, .ninf => .inf

/-- IEEE division (exact on finite operands; `x/0` signed infinity for
`x ≠ 0`, `0/0 = nan`; the unsigned rational zero is treated as `+0`). -/
def F.div : F → F → F
  | .nan, _ => .nan
  | _, .nan => .nan
  | .fin a, .fin b =>
      if b = 0 then (if a = 0 then .nan else if 0 < a then .inf else .ninf)
      else .fin (a / b)
  | .fin _, .inf => .fin 0
  | .fin _, .ninf => .fin 0
  | .inf, .fin b => if b < 0 then .ninf else .inf
  | .ninf, .fin b => if b < 0 then .inf else .ninf
  | .inf, _ => .nan
  | .ninf, _ => .nan

instance : Neg F := ⟨F.neg⟩
instance : Add F := ⟨F.add⟩
instance : Sub F := ⟨F.sub⟩
instance : Mul F := ⟨F.mul⟩
instance : Div F := ⟨F.div⟩

/-- Strict `<` comparison of `f32` (`false` whenever an operand is `nan`). -/
def F.blt : F → F → Bool
  | .nan, _ => false
  | _, .nan => false
  | .fin a, .fin b => decide (a < b)
  | .fin _, .inf => true
  | .fin _, .ninf => false
  | .inf, _ => false
  | .ninf, .ninf => false
  | .ninf, _ => true

/-- Non-strict `<=` comparison of `f32` (`false` whenever an operand is `nan`). -/
def F.ble : F → F → Bool
  | .nan, _ => false
  | _, .nan => false
  | .fin a, .fin b => decide (a ≤ b)
  | .fin _, .inf => true
  | .fin _, .ninf => false
  | .inf, .inf => true
  | .inf, _ => false
  | .ninf, _ => true

/-- Rust `f32::min`: if one argument is `nan` the other is returned. -/
def F.fmin (a b : F) : F :=
  if a = .nan then b else if b = .nan then a else if F.ble a b then a else b

/-- Rust `f32::max`: if one argument is `nan` the other is returned. -/
def F.fmax (a b : F) : F :=
  if a = .nan then b else if b = .nan then a else if F.ble b a then a else b

/-- IEEE absolute value. -/
def F.abs : F → F
  | .fin q => .fin |q|
  | .inf => .inf
  | .ninf => .inf
  | .nan => .nan

/-- Rust `f32::floor`. -/
def F.floorF : F → F
  | .fin q => .fin (Int.floor q)
  | .inf => .inf
  | .ninf => .ninf
  | .nan => .nan

/-- Rust `f32::mul_add` (fused multiply-add); exact over the rational model,
with the IEEE special-value behaviour of `a * b + c`. -/
def F.mulAdd (a b c : F) : F := F.add (F.mul a b) c

/-- Model of `f32::sqrt` on nonnegative rationals: exact on perfect squares
of rationals, a fixed-precision underestimate elsewhere.  Theorems in this
development never depend on the approximate branch. -/
def ratSqrt (q : ℚ) : ℚ :=
  if q ≤ 0 then 0
  else
    let n := q.num.toNat
    let d := q.den
    if Nat.sqrt n * Nat.sqrt n = n ∧ Nat.sqrt d * Nat.sqrt d = d then
      (Nat.sqrt n : ℚ) / (Nat.sqrt d : ℚ)
    else
      (Nat.sqrt (n * 2 ^ 40 / d) : ℚ) / (2 ^ 20 : ℚ)

/-- Rust `f32::sqrt` over `F` (`nan` on negative inputs). -/
def F.sqrtF : F → F
  | .fin q => if q < 0 then .nan else .fin (ratSqrt q)
  | .inf => .inf
  | .ninf => .nan
  | .nan => .nan

/-- Whether an `F` value is finite. -/
def F.isFin : F → Bool
  | .fin _ => true
  | _ => false

/-- Model of glam `Vec3` with `f32` components. -/
structure Vec3F where
  x : F
  y : F
  z : F
deriving DecidableEq

/-- Componentwise vector addition. -/
def Vec3F.vadd (a b : Vec3F) : Vec3F := ⟨a.x + b.x, a.y + b.y, a.z + b.z⟩

/-- Componentwise vector subtraction. -/
def Vec3F.vsub (a b : Vec3F) : Vec3F := ⟨a.x - b.x, a.y - b.y, a.z - b.z⟩

/-- Scalar multiplication `v * s`. -/
def Vec3F.scale (v : Vec3F) (s : F) : Vec3F := ⟨v.x * s, v.y * s, v.z * s⟩

/-- glam `Vec3::dot`: `x*x + y*y + z*z`, left associated. -/
def Vec3F.dot (a b : Vec3F) : F := a.x * b.x + a.y * b.y + a.z * b.z

/-- glam `Vec3::length`: `self.dot(self).sqrt()`. -/
def Vec3F.length (v : Vec3F) : F := F.sqrtF (Vec3F.dot v v)

/-- glam `Vec3::lerp`: `self + ((rhs - self) * s)`. -/
def Vec3F.lerp (a b : Vec3F) (s : F) : Vec3F := a.vadd ((b.vsub a).scale s)

/-- The zero vector (`Vec3::ZERO`). -/
def Vec3F.zero : Vec3F := ⟨.fin 0, .fin 0, .fin 0⟩

/-- Whether all three components are finite. -/
def Vec3F.finite (v : Vec3F) : Bool := v.x.isFin && v.y.isFin && v.z.isFin

/-- The exact value of the `f32` constant `std::f32::consts::PI`. -/
def piQ : ℚ := 13176795 / 4194304

/-- The exact value of the `f32` constant `std::f32::consts::TAU`
(in `f32`, `TAU` is exactly `2 * PI`). -/
def tauQ : ℚ := 13176795 / 2097152

/-- The exact value of `f32::EPSILON` (`2 ^ -23`). -/
def epsQ : ℚ := 1 / 8388608

/-- Transcendental `f32` primitives the source uses (`f32::tan`,
`f32::atan2`).  Every theorem quantifies over this record, so it holds in
particular for the true `f32` functions. -/
structure TransFuns where
  tan : F → F
  atan2 : F → F → F

/-- Action of the camera rotation `Quat::from_euler(EulerRot::YXZ, yaw,
-pitch, 0.0)` on the coordinate axes: `right = rot * Vec3::X`,
`up = rot * Vec3::Y`, `back = rot * Vec3::Z`.  The source consumes the
rotation only through these three vectors (`rot * Vec3::new(0,0,d)` equals
`back.scale d` and `rot * Vec3::NEG_Z` equals `back.neg` by linearity). -/
structure CamBasis where
  right : Vec3F
  up : Vec3F
  back : Vec3F
deriving DecidableEq

/-- Componentwise negation (used for `rot * Vec3::NEG_Z`). -/
def Vec3F.vneg (v : Vec3F) : Vec3F := ⟨F.neg v.x, F.neg v.y, F.neg v.z⟩

/-- Model of `bevy::math::Rect` (fields `min`/`max` flattened). -/
structure RectF where
  min_x : F
  min_y : F
  max_x : F
  max_y : F
deriving DecidableEq

/-- glam `Rect::new(x0, y0, x1, y1)`: corners are normalised with
componentwise `f32::min` / `f32::max`. -/
def RectF.new (x0 y0 x1 y1 : F) : RectF :=
  ⟨F.fmin x0 x1, F.fmin y0 y1, F.fmax x0 x1, F.fmax y0 y1⟩

/-- Rect width `max.x - min.x`. -/
def RectF.width (r : RectF) : F := r.max_x - r.min_x

/-- Rect height `max.y - min.y`. -/
def RectF.height (r : RectF) : F := r.max_y - r.min_y

/-- The fields of `bevy`'s `PerspectiveProjection` used by the source
(`fov`, `aspect_ratio`, `near`, `far`); the `aspect_ratio` field is named
`aspect` here. -/
structure PerspectiveProj where
  fov : F
  aspect : F
  near : F
  far : F
deriving DecidableEq

/-- The fields of `bevy`'s `OrthographicProjection` used by the source
(`near`, `far`, `scale`, `area`). -/
structure OrthoProj where
  near : F
  far : F
  scale : F
  area : RectF
deriving DecidableEq

/-- Model of `bevy`'s `Projection`; `Custom` stands for the catch-all
variants the source rejects with `_ =>` arms. -/
inductive Projection where
  | Perspective (p : PerspectiveProj)
  | Orthographic (o : OrthoProj)
  | Custom
deriving DecidableEq

-- ============================================================================
-- src/support.rs
-- ============================================================================

/-- `support::MIN_VISIBLE_DEPTH`: minimum depth for a point to be considered
in front of the camera. -/
def MIN_VISIBLE_DEPTH : F := F.fin (1 / 10)

/-- `support::ProjectionParams`: projection-derived parameters for
screen-space normalisation. -/
structure ProjectionParams where
  half_extent_x : F
  half_extent_y : F
  is_ortho : Bool
deriving DecidableEq

/-- `support::ProjectionParams::from_projection`: extracts half extents and
projection kind; `none` for unsupported projection variants.  Perspective
uses `tan(fov * 0.5)` vertically, scaled by the viewport aspect horizontally;
orthographic uses half of the area extents. -/
def ProjectionParams.from_projection (tf : TransFuns) (projection : Projection)
    (viewport_aspect : F) : Option ProjectionParams :=
  let is_ortho := match projection with
    | .Orthographic _ => true
    | _ => false
  match projection with
  | .Perspective p =>
      let half_tan_vfov := tf.tan (p.fov * F.fin (1 / 2))
      some ⟨half_tan_vfov * viewport_aspect, half_tan_vfov, is_ortho⟩
  | .Orthographic o =>
      some ⟨o.area.width * F.fin (1 / 2), o.area.height * F.fin (1 / 2), is_ortho⟩
  | .Custom => none

/-- `support::project_point`: projects a world-space point to normalised
screen coordinates, returning `(norm_x, norm_y, depth)`, or `none` if the
point is behind the camera (perspective only). -/
def project_point (point cam_pos cam_right cam_up cam_forward : Vec3F)
    (is_ortho : Bool) : Option (F × F × F) :=
  let relative := point.vsub cam_pos
  let depth := relative.dot cam_forward
  if !is_ortho && F.ble depth MIN_VISIBLE_DEPTH then none
  else
    let x := relative.dot cam_right
    let y := relative.dot cam_up
    let nxy := if is_ortho then (x, y) else (x / depth, y / depth)
    some (nxy.1, nxy.2, depth)

/-- `support::projection_aspect_ratio` (renamed `projection_aspect`):
extracts the aspect ratio of a projection, preferring the viewport size for
perspective; `none` for orthographic with near-zero-height area and for
unknown variants. -/
def projection_aspect (projection : Projection) (viewport_size : Option (F × F)) :
    Option F :=
  match projection with
  | .Perspective p =>
      some (match viewport_size with
        | some s => s.1 / s.2
        | none => p.aspect)
  | .Orthographic o =>
      if F.blt (F.abs o.area.height) (F.fin epsQ) then none
      else some (o.area.width / o.area.height)
  | .Custom => none

-- ============================================================================
-- src/fit.rs
-- ============================================================================

/-- `fit::MAX_ITERATIONS`. -/
def MAX_ITERATIONS : Nat := 200

/-- `fit::TOLERANCE` (0.1% tolerance for convergence). -/
def TOLERANCE : F := F.fin (1 / 1000)

/-- `fit::CENTERING_MAX_ITERATIONS`. -/
def CENTERING_MAX_ITERATIONS : Nat := 10

/-- `fit::CENTERING_TOLERANCE` (normalised screen-space centre offset). -/
def CENTERING_TOLERANCE : F := F.fin (1 / 10000)

/-- `fit::zoom_margin_multiplier`: `1.0 / (1.0 - margin)`. -/
def zoom_margin_multiplier (margin : F) : F := F.fin 1 / (F.fin 1 - margin)

/-- `fit::ScreenSpaceBounds`: screen-space bounds information with margin
calculations. -/
structure ScreenSpaceBounds where
  left_margin : F
  right_margin : F
  top_margin : F
  bottom_margin : F
  target_margin_x : F
  target_margin_y : F
  min_norm_x : F
  max_norm_x : F
  min_norm_y : F
  max_norm_y : F
  centering_depth_x : F
  centering_depth_y : F
  half_extent_x : F
  half_extent_y : F
deriving DecidableEq

/-- Accumulator of the projection loop of
`ScreenSpaceBounds::from_points`: running extrema of the normalised
coordinates and the depths of the points realising them. -/
structure BoundsAcc where
  min_norm_x : F
  max_norm_x : F
  min_norm_y : F
  max_norm_y : F
  min_x_depth : F
  max_x_depth : F
  min_y_depth : F
  max_y_depth : F
deriving DecidableEq

/-- Initial accumulator (`f32::INFINITY` / `f32::NEG_INFINITY` extrema,
zero depths), as at the top of `ScreenSpaceBounds::from_points`. -/
def initAcc : BoundsAcc := ⟨.inf, .ninf, .inf, .ninf, .fin 0, .fin 0, .fin 0, .fin 0⟩

/-- One body of the projection loop of `ScreenSpaceBounds::from_points`:
the four independent `if` updates of the extrema and their depths. -/
def stepAcc (acc : BoundsAcc) (nx ny d : F) : BoundsAcc :=
  let a1 := if F.blt nx acc.min_norm_x then
      { acc with min_norm_x := nx, min_x_depth := d } else acc
  let a2 := if F.blt a1.max_norm_x nx then
      { a1 with max_norm_x := nx, max_x_depth := d } else a1
  let a3 := if F.blt ny a2.min_norm_y then
      { a2 with min_norm_y := ny, min_y_depth := d } else a2
  if F.blt a3.max_norm_y ny then
      { a3 with max_norm_y := ny, max_y_depth := d } else a3

/-- The projection loop of `ScreenSpaceBounds::from_points`: projects every
point, failing (`none`) as soon as one projection fails. -/
def foldPoints (cam_pos cam_right cam_up cam_forward : Vec3F) (is_ortho : Bool) :
    List Vec3F → BoundsAcc → Option BoundsAcc
  | [], acc => some acc
  | p :: rest, acc =>
    match project_point p cam_pos cam_right cam_up cam_forward is_ortho with
    | none => none
    | some (nx, ny, d) =>
        foldPoints cam_pos cam_right cam_up cam_forward is_ortho rest
          (stepAcc acc nx ny d)

/-- `fit::ScreenSpaceBounds::from_points`: creates screen-space bounds from
a camera's view of a set of points; `none` if any point is behind the
camera (perspective only).  The camera's `GlobalTransform` is modelled by
its translation `cam_pos` and rotation action `b : CamBasis`
(`cam_forward = rot * Vec3::NEG_Z = b.back.vneg`). -/
def ScreenSpaceBounds.from_points (tf : TransFuns) (points : List Vec3F)
    (cam_pos : Vec3F) (b : CamBasis) (projection : Projection)
    (viewport_aspect : F) (zoom_multiplier : F) : Option ScreenSpaceBounds :=
  match ProjectionParams.from_projection tf projection viewport_aspect with
  | none => none
  | some pp =>
    match foldPoints cam_pos b.right b.up b.back.vneg pp.is_ortho points initAcc with
    | none => none
    | some acc =>
      let cds := if pp.is_ortho then (F.fin 1, F.fin 1)
        else
          (F.fin 2 * acc.min_x_depth * acc.max_x_depth /
             (acc.min_x_depth + acc.max_x_depth),
           F.fin 2 * acc.min_y_depth * acc.max_y_depth /
             (acc.min_y_depth + acc.max_y_depth))
      let boundaryAspect := (acc.max_norm_x - acc.min_norm_x) /
        (acc.max_norm_y - acc.min_norm_y)
      let screenAspect := pp.half_extent_x / pp.half_extent_y
      let width_constrains := F.blt screenAspect boundaryAspect
      let te := if width_constrains then
          let target_x := pp.half_extent_x / zoom_multiplier
          (target_x, target_x / boundaryAspect)
        else
          let target_y := pp.half_extent_y / zoom_multiplier
          (target_y * boundaryAspect, target_y)
      some
        { left_margin := acc.min_norm_x - pp.half_extent_x.neg
          right_margin := pp.half_extent_x - acc.max_norm_x
          top_margin := pp.half_extent_y - acc.max_norm_y
          bottom_margin := acc.min_norm_y - pp.half_extent_y.neg
          target_margin_x := pp.half_extent_x - te.1
          target_margin_y := pp.half_extent_y - te.2
          min_norm_x := acc.min_norm_x
          max_norm_x := acc.max_norm_x
          min_norm_y := acc.min_norm_y
          max_norm_y := acc.max_norm_y
          centering_depth_x := cds.1
          centering_depth_y := cds.2
          half_extent_x := pp.half_extent_x
          half_extent_y := pp.half_extent_y }

/-- `fit::ScreenSpaceBounds::is_balanced`. -/
def ScreenSpaceBounds.is_balanced (b : ScreenSpaceBounds) (tolerance : F) : Bool :=
  F.blt (F.abs (b.left_margin - b.right_margin)) tolerance &&
    F.blt (F.abs (b.top_margin - b.bottom_margin)) tolerance

/-- `fit::ScreenSpaceBounds::is_fitted`: the constraining dimension (the
one with the smaller of the per-axis min margins) must be at its target. -/
def ScreenSpaceBounds.is_fitted (b : ScreenSpaceBounds) (at_target_tolerance : F) :
    Bool :=
  let h_min := F.fmin b.left_margin b.right_margin
  let v_min := F.fmin b.top_margin b.bottom_margin
  let ctm := if F.blt h_min v_min then (h_min, b.target_margin_x)
    else (v_min, b.target_margin_y)
  F.blt (F.abs (ctm.1 - ctm.2)) at_target_tolerance

/-- `fit::ScreenSpaceBounds::center`. -/
def ScreenSpaceBounds.center (b : ScreenSpaceBounds) : F × F :=
  ((b.min_norm_x + b.max_norm_x) * F.fin (1 / 2),
   (b.min_norm_y + b.max_norm_y) * F.fin (1 / 2))

/-- `fit::ScreenSpaceBounds::span`. -/
def ScreenSpaceBounds.span (b : ScreenSpaceBounds) : F × F :=
  (b.max_norm_x - b.min_norm_x, b.max_norm_y - b.min_norm_y)

/-- `fit::build_test_projection`: for perspective the projection is
returned unchanged; for orthographic the `area` is rescaled to the test
scale and `scale` is set to `test_radius`. -/
def build_test_projection (projection : Projection) (test_radius : F) : Projection :=
  match projection with
  | .Perspective _ => projection
  | .Orthographic o =>
      let current_scale := o.scale
      let scale_ratio := if F.blt (F.fin epsQ) (F.abs current_scale) then
          test_radius / current_scale
        else F.fin 1
      let new_area := RectF.new (o.area.min_x * scale_ratio)
        (o.area.min_y * scale_ratio) (o.area.max_x * scale_ratio)
        (o.area.max_y * scale_ratio)
      .Orthographic { o with scale := test_radius, area := new_area }
  | .Custom => projection

/-- The loop body of `fit::refine_focus_centering`, with explicit fuel
standing for the remaining iterations of `0..CENTERING_MAX_ITERATIONS`.
The `break` arms return the current focus. -/
def centeringGo (tf : TransFuns) (points : List Vec3F) (b : CamBasis)
    (projection : Projection) (aspect : F) (cam_distance : F) :
    Nat → Vec3F → Vec3F
  | 0, focus => focus
  | n + 1, focus =>
    let cam_pos := focus.vadd (b.back.scale cam_distance)
    match ScreenSpaceBounds.from_points tf points cam_pos b projection aspect
        (F.fin 1) with
    | none => focus
    | some bounds =>
      let c := bounds.center
      if F.blt (F.abs c.1) CENTERING_TOLERANCE &&
          F.blt (F.abs c.2) CENTERING_TOLERANCE then focus
      else
        centeringGo tf points b projection aspect cam_distance n
          (focus.vadd (((b.right.scale c.1).scale bounds.centering_depth_x).vadd
            ((b.up.scale c.2).scale bounds.centering_depth_y)))

/-- `fit::refine_focus_centering`: shifts the camera focus so the projected
bounding box is centred on screen (at most `CENTERING_MAX_ITERATIONS`
correction steps). -/
def refine_focus_centering (tf : TransFuns) (points : List Vec3F)
    (initial_focus : Vec3F) (radius : F) (b : CamBasis)
    (projection : Projection) (aspect : F) (ortho_fixed_distance : Option F) :
    Vec3F :=
  let cam_distance := ortho_fixed_distance.getD radius
  centeringGo tf points b projection aspect cam_distance
    CENTERING_MAX_ITERATIONS initial_focus

/-- Mutable state of the binary search of `fit::calculate_fit`. -/
structure SearchState where
  min_radius : F
  max_radius : F
  best_radius : F
  best_focus : Vec3F
  best_error : F
deriving DecidableEq

/-- Outcome of one iteration of the binary-search loop of
`fit::calculate_fit`: either an early `return` (converged) or the state for
the next iteration. -/
inductive StepResult where
  | done (out : F × Vec3F)
  | next (s : SearchState)
deriving DecidableEq

/-- One iteration of the binary-search loop body of `fit::calculate_fit`
(lines of the `for iteration in 0..MAX_ITERATIONS` body): test the interval
midpoint, re-centre the focus, evaluate margins, track the best-seen pair,
bisect, and return early once the interval is below `0.001`.  A
behind-camera failure (`continue`) raises the lower bound and skips the
convergence check. -/
def fitStep (tf : TransFuns) (points : List Vec3F) (geometric_center : Vec3F)
    (b : CamBasis) (projection : Projection) (aspect : F)
    (ortho_fixed_distance : Option F) (zoom_multiplier : F)
    (s : SearchState) : StepResult :=
  let test_radius := (s.min_radius + s.max_radius) * F.fin (1 / 2)
  let test_projection := build_test_projection projection test_radius
  let centered_focus := refine_focus_centering tf points geometric_center
    test_radius b test_projection aspect ortho_fixed_distance
  let cam_distance := ortho_fixed_distance.getD test_radius
  let cam_pos := centered_focus.vadd (b.back.scale cam_distance)
  match ScreenSpaceBounds.from_points tf points cam_pos b test_projection aspect
      zoom_multiplier with
  | none => .next { s with min_radius := test_radius }
  | some bounds =>
    let h_min := F.fmin bounds.left_margin bounds.right_margin
    let v_min := F.fmin bounds.top_margin bounds.bottom_margin
    let ctm := if F.blt h_min v_min then (h_min, bounds.target_margin_x)
      else (v_min, bounds.target_margin_y)
    let margin_error := F.abs (ctm.1 - ctm.2)
    let s1 := if F.blt margin_error s.best_error then
        { s with best_error := margin_error, best_radius := test_radius,
                 best_focus := centered_focus }
      else s
    let s2 := if F.blt ctm.2 ctm.1 then { s1 with max_radius := test_radius }
      else { s1 with min_radius := test_radius }
    if F.blt (s2.max_radius - s2.min_radius) (F.fin (1 / 1000)) then
      .done (s2.best_radius, s2.best_focus)
    else .next s2

/-- The binary-search loop of `fit::calculate_fit`, with fuel standing for
the remaining iterations of `0..MAX_ITERATIONS`; falling out of the loop
returns the best-seen pair. -/
def fitLoop (tf : TransFuns) (points : List Vec3F) (geometric_center : Vec3F)
    (b : CamBasis) (projection : Projection) (aspect : F)
    (ortho_fixed_distance : Option F) (zoom_multiplier : F) :
    Nat → SearchState → F × Vec3F
  | 0, s => (s.best_radius, s.best_focus)
  | n + 1, s =>
    match fitStep tf points geometric_center b projection aspect
        ortho_fixed_distance zoom_multiplier s with
    | .done out => out
    | .next s2 =>
        fitLoop tf points geometric_center b projection aspect
          ortho_fixed_distance zoom_multiplier n s2

/-- Instrumented variant of `fitLoop` that also counts the executed
iterations; its first component provably equals `fitLoop`. -/
def fitLoopSteps (tf : TransFuns) (points : List Vec3F) (geometric_center : Vec3F)
    (b : CamBasis) (projection : Projection) (aspect : F)
    (ortho_fixed_distance : Option F) (zoom_multiplier : F) :
    Nat → SearchState → (F × Vec3F) × Nat
  | 0, s => ((s.best_radius, s.best_focus), 0)
  | n + 1, s =>
    match fitStep tf points geometric_center b projection aspect
        ortho_fixed_distance zoom_multiplier s with
    | .done out => (out, 1)
    | .next s2 =>
        let r := fitLoopSteps tf points geometric_center b projection aspect
          ortho_fixed_distance zoom_multiplier n s2
        (r.1, r.2 + 1)

/-- `fit::calculate_fit`: binary search for the `(radius, focus)` pair that
frames `points` with the requested margin.  The rotation
`Quat::from_euler(EulerRot::YXZ, yaw, -pitch, 0.0)` is modelled by its
basis action `b`; the `Camera` argument is modelled by its
`logical_viewport_size()`. -/
def calculate_fit (tf : TransFuns) (points : List Vec3F) (geometric_center : Vec3F)
    (b : CamBasis) (margin : F) (projection : Projection)
    (viewport_size : Option (F × F)) : Option (F × Vec3F) :=
  match projection_aspect projection viewport_size with
  | none => none
  | some aspect =>
    let ortho_fixed_distance := match projection with
      | .Orthographic o => some ((o.near + o.far) * F.fin (1 / 2))
      | _ => none
    let zoom_multiplier := zoom_margin_multiplier margin
    let object_radius := (points.map
      (fun c => (c.vsub geometric_center).length)).foldl F.fmax (F.fin 0)
    let s0 : SearchState :=
      { min_radius := object_radius * F.fin (1 / 10)
        max_radius := object_radius * F.fin 100
        best_radius := object_radius * F.fin 2
        best_focus := geometric_center
        best_error := F.inf }
    some (fitLoop tf points geometric_center b projection aspect
      ortho_fixed_distance zoom_multiplier MAX_ITERATIONS s0)

-- ============================================================================
-- src/animation.rs
-- ============================================================================

/-- `animation::CameraMove`: an individual camera movement.  The bevy
`EaseFunction` is modelled by its sampling function `F → F`
(`EaseFunction::sample_unchecked`); theorems quantify over it. -/
inductive CameraMove where
  | ToPosition (translation : Vec3F) (focus : Vec3F) (duration_ms : F)
      (easing : F → F)
  | ToOrbit (focus : Vec3F) (yaw pitch radius : F) (duration_ms : F)
      (easing : F → F)

/-- `CameraMove::duration_ms`. -/
def CameraMove.durationMs : CameraMove → F
  | .ToPosition _ _ d _ => d
  | .ToOrbit _ _ _ _ d _ => d

/-- `CameraMove::easing`. -/
def CameraMove.easingFn : CameraMove → (F → F)
  | .ToPosition _ _ _ e => e
  | .ToOrbit _ _ _ _ _ e => e

/-- `CameraMove::focus`. -/
def CameraMove.focusOf : CameraMove → Vec3F
  | .ToPosition _ f _ _ => f
  | .ToOrbit f _ _ _ _ _ => f

/-- `CameraMove::orbital_params`: the target orbital parameters
`(yaw, pitch, radius)`.  `ToPosition` decomposes the world-space offset via
`atan2` and `hypot` (`f32::hypot` modelled as `sqrt(x*x + z*z)`). -/
def CameraMove.orbital_params (tf : TransFuns) : CameraMove → F × F × F
  | .ToPosition translation focus _ _ =>
      let offset := translation.vsub focus
      let radius := offset.length
      let yaw := tf.atan2 offset.x offset.z
      let horizontal_dist := F.sqrtF (offset.x * offset.x + offset.z * offset.z)
      let pitch := tf.atan2 offset.y horizontal_dist
      (yaw, pitch, radius)
  | .ToOrbit _ yaw pitch radius _ _ => (yaw, pitch, radius)

/-- `animation::MoveState`: state tracking for the current camera movement. -/
inductive MoveState where
  | InProgress (elapsed_ms : F) (start_focus : Vec3F)
      (start_pitch start_radius start_yaw : F)
  | Ready

/-- `animation::CameraMoveList`: queued camera movements plus progress
state (`VecDeque` modelled by a list whose head is the front). -/
structure CameraMoveList where
  moves : List CameraMove
  state : MoveState

/-- `CameraMoveList::new`. -/
def CameraMoveList.new (moves : List CameraMove) : CameraMoveList :=
  ⟨moves, .Ready⟩

/-- The fields of `PanOrbitCamera` read or written by
`process_camera_move_list`. -/
structure PanOrbit where
  target_focus : Vec3F
  target_yaw : F
  target_pitch : F
  target_radius : F
  zoom_smoothness : F
  pan_smoothness : F
  orbit_smoothness : F
  force_update : Bool

/-- `components::ZoomAnimationMarker` (the payload fields forwarded into
`ZoomEnd`; the entity id and easing payload are irrelevant to the claims
and omitted). -/
structure ZoomAnimationMarker where
  margin : F
  duration_ms : F

/-- The events triggered by `process_camera_move_list` (entity ids and the
`ZoomEnd` payload are omitted; `CameraMoveBegin`/`CameraMoveEnd` carry the
move). -/
inductive Event where
  | ZoomEnd
  | AnimationEnd
  | CameraMoveBegin (m : CameraMove)
  | CameraMoveEnd (m : CameraMove)

/-- Result of one tick of `process_camera_move_list` for one camera:
the updated `PanOrbitCamera` fields, the `CameraMoveList` component
(`none` when removed), the `ZoomAnimationMarker` component (`none` when
removed or absent), and the triggered events. -/
structure TickResult where
  pan : PanOrbit
  queue : Option CameraMoveList
  marker : Option ZoomAnimationMarker
  events : List Event

/-- The interpolation factor `t` of a tick:
`(elapsed_ms / duration_ms).min(1.0)`. -/
def tickT (elapsed_ms duration_ms : F) : F :=
  F.fmin (elapsed_ms / duration_ms) (F.fin 1)

/-- The yaw unwrapping of `process_camera_move_list`:
`TAU.mul_add(-((yaw_diff + PI) / TAU).floor(), yaw_diff)`. -/
def wrapYawF (yaw_diff : F) : F :=
  F.mulAdd (F.fin tauQ)
    (F.neg (F.floorF ((yaw_diff + F.fin piQ) / F.fin tauQ))) yaw_diff

/-- The pitch target adjustment of `process_camera_move_list`: the target
pitch is shifted by `∓TAU` when the raw difference from the start pitch
exceeds `PI` in magnitude; returns the adjusted difference. -/
def adjustPitchDiff (start_pitch canonical_pitch : F) : F :=
  let pitch_diff_raw := canonical_pitch - start_pitch
  let pitch_target := if F.blt (F.fin piQ) pitch_diff_raw then
      canonical_pitch - F.fin tauQ
    else if F.blt pitch_diff_raw (F.neg (F.fin piQ)) then
      canonical_pitch + F.fin tauQ
    else canonical_pitch
  pitch_target - start_pitch

/-- `animation::process_camera_move_list`, restricted to one camera: one
tick given the elapsed seconds, the camera's orbital state, its move queue
and its optional zoom marker. -/
def process_camera_move_list (tf : TransFuns) (delta_secs : F) (pan : PanOrbit)
    (queue : CameraMoveList) (marker : Option ZoomAnimationMarker) : TickResult :=
  match queue.moves with
  | [] =>
    { pan := pan, queue := none, marker := none
      events := match marker with
        | some _ => [Event.ZoomEnd]
        | none => [Event.AnimationEnd] }
  | current_move :: rest =>
    match queue.state with
    | .Ready =>
      let pan1 := { pan with
        zoom_smoothness := F.fin 0
        pan_smoothness := F.fin 0
        orbit_smoothness := F.fin 0 }
      { pan := pan1
        queue := some ⟨current_move :: rest,
          .InProgress (F.fin 0) pan.target_focus pan.target_pitch
            pan.target_radius pan.target_yaw⟩
        marker := marker
        events := match marker with
          | some _ => []
          | none => [Event.CameraMoveBegin current_move] }
    | .InProgress elapsed_ms start_focus start_pitch start_radius start_yaw =>
      let elapsed2 := elapsed_ms + delta_secs * F.fin 1000
      let t := tickT elapsed2 current_move.durationMs
      let is_final_frame := F.ble (F.fin 1) t
      let cpr := current_move.orbital_params tf
      let t_clamped := F.fmin t (F.fin 1)
      let t_interp := current_move.easingFn t_clamped
      let yaw_diff := wrapYawF (cpr.1 - start_yaw)
      let pitch_diff := adjustPitchDiff start_pitch cpr.2.1
      let pan2 := { pan with
        target_focus := start_focus.lerp current_move.focusOf t_interp
        target_radius := F.mulAdd (cpr.2.2 - start_radius) t_interp start_radius
        target_yaw := F.mulAdd yaw_diff t_interp start_yaw
        target_pitch := F.mulAdd pitch_diff t_interp start_pitch
        force_update := true }
      if is_final_frame then
        { pan := pan2, queue := some ⟨rest, .Ready⟩, marker := marker
          events := match marker with
            | some _ => []
            | none => [Event.CameraMoveEnd current_move] }
      else
        { pan := pan2
          queue := some ⟨current_move :: rest,
            .InProgress elapsed2 start_focus start_pitch start_radius start_yaw⟩
          marker := marker
          events := [] }

-- ============================================================================
-- Concrete fixtures for witnesses and counterexamples
-- ============================================================================

/-- Transcendental functions fixture: `tan` constantly `1` (the exact value
of `tan` at `fov/2 = π/4`), `atan2` constantly `0`.  Every universally
quantified theorem may be instantiated at it. -/
def tf0 : TransFuns := ⟨fun _ => F.fin 1, fun _ _ => F.fin 0⟩

/-- The identity rotation basis (`yaw = 0`, `pitch = 0`). -/
def idBasis : CamBasis :=
  ⟨⟨F.fin 1, F.fin 0, F.fin 0⟩, ⟨F.fin 0, F.fin 1, F.fin 0⟩,
   ⟨F.fin 0, F.fin 0, F.fin 1⟩⟩

/-- A perspective projection fixture (`fov = π/2`). -/
def persp0 : Projection :=
  .Perspective ⟨F.fin (piQ / 2), F.fin 1, F.fin (1 / 10), F.fin 1000⟩

/-- Two points at depth `1` in front of the identity camera, spanning
`[-1/2, 1/2] × [-1/5, 1/5]` in normalised screen space. -/
def pts5 : List Vec3F :=
  [⟨F.fin (-1/2), F.fin (-1/5), F.fin (-1)⟩,
   ⟨F.fin (1/2), F.fin (1/5), F.fin (-1)⟩]

/-- The linear easing function (`EaseFunction::Linear`). -/
def easeLinear : F → F := fun t => t

/-- A `ToOrbit` move fixture targeting `yaw = PI` over `100` ms. -/
def moveYawPi : CameraMove :=
  .ToOrbit Vec3F.zero (F.fin piQ) (F.fin 0) (F.fin 1) (F.fin 100) easeLinear

/-- A `PanOrbitCamera` fixture at the origin pose. -/
def pan0 : PanOrbit :=
  ⟨Vec3F.zero, F.fin 0, F.fin 0, F.fin 1, F.fin (1/10), F.fin (1/10),
   F.fin (1/10), false⟩

/-- The selection of the compared `(current margin, target margin)` pair as
the spec describes it for claim C5, modelled from the spec: the authoritative
current margin is the per-axis tighter side, and the pair compared is that of
the axis singled out by the aspect-ratio comparison (the axis whose
box/screen ratio is larger constrains).  This is the refinement candidate to
diff against the source's `is_fitted`. -/
def is_fittedSpecC5 (b : ScreenSpaceBounds) (at_target_tolerance : F) : Bool :=
  let h_min := F.fmin b.left_margin b.right_margin
  let v_min := F.fmin b.top_margin b.bottom_margin
  let boundaryAspect := (b.max_norm_x - b.min_norm_x) /
    (b.max_norm_y - b.min_norm_y)
  let screenAspect := b.half_extent_x / b.half_extent_y
  let ctm := if F.blt screenAspect boundaryAspect then (h_min, b.target_margin_x)
    else (v_min, b.target_margin_y)
  F.blt (F.abs (ctm.1 - ctm.2)) at_target_tolerance

/-- Invariant of the projection fold under perspective: each of the four
recorded extremal depths is finite and exceeds `MIN_VISIBLE_DEPTH = 1/10`. -/
def depthsOk (acc : BoundsAcc) : Prop :=
  (∃ q : ℚ, acc.min_x_depth = F.fin q ∧ 1/10 < q) ∧
  (∃ q : ℚ, acc.max_x_depth = F.fin q ∧ 1/10 < q) ∧
  (∃ q : ℚ, acc.min_y_depth = F.fin q ∧ 1/10 < q) ∧
  (∃ q : ℚ, acc.max_y_depth = F.fin q ∧ 1/10 < q)

/-- Instrumented variant of `centeringGo` that also counts the executed
correction iterations; its first component provably equals `centeringGo`. -/
def centeringGoSteps (tf : TransFuns) (points : List Vec3F) (b : CamBasis)
    (projection : Projection) (aspect : F) (cam_distance : F) :
    Nat → Vec3F → Vec3F × Nat
  | 0, focus => (focus, 0)
  | n + 1, focus =>
    let cam_pos := focus.vadd (b.back.scale cam_distance)
    match ScreenSpaceBounds.from_points tf points cam_pos b projection aspect
        (F.fin 1) with
    | none => (focus, 1)
    | some bounds =>
      let c := bounds.center
      if F.blt (F.abs c.1) CENTERING_TOLERANCE &&
          F.blt (F.abs c.2) CENTERING_TOLERANCE then (focus, 1)
      else
        let r := centeringGoSteps tf points b projection aspect cam_distance n
          (focus.vadd (((b.right.scale c.1).scale bounds.centering_depth_x).vadd
            ((b.up.scale c.2).scale bounds.centering_depth_y)))
        (r.1, r.2 + 1)

-- ============================================================================
-- Theorems
-- ============================================================================

theorem F.add_fin (a b : ℚ) : F.add (F.fin a) (F.fin b) = F.fin (a + b) := rfl

theorem F.hadd_fin (a b : ℚ) : F.fin a + F.fin b = F.fin (a + b) := rfl

theorem F.mul_fin (a b : ℚ) : F.mul (F.fin a) (F.fin b) = F.fin (a * b) := rfl

theorem F.hmul_fin (a b : ℚ) : F.fin a * F.fin b = F.fin (a * b) := rfl

theorem F.neg_fin (a : ℚ) : F.neg (F.fin a) = F.fin (-a) := rfl

theorem F.sub_fin (a b : ℚ) : F.sub (F.fin a) (F.fin b) = F.fin (a - b) := by
  simp [F.sub, F.add, F.neg, sub_eq_add_neg]

theorem F.hsub_fin (a b : ℚ) : F.fin a - F.fin b = F.fin (a - b) := F.sub_fin a b

theorem F.div_fin (a b : ℚ) (hb : b ≠ 0) :
    F.div (F.fin a) (F.fin b) = F.fin (a / b) := by
  simp [F.div, hb]

theorem F.hdiv_fin (a b : ℚ) (hb : b ≠ 0) :
    F.fin a / F.fin b = F.fin (a / b) := F.div_fin a b hb

theorem F.mulAdd_fin (a b c : ℚ) :
    F.mulAdd (F.fin a) (F.fin b) (F.fin c) = F.fin (a * b + c) := rfl

/-- Claim C4: `project_point` under perspective fails exactly when the
depth `dot(point - camera_position, forward)` is at most
`MIN_VISIBLE_DEPTH = 0.1`, otherwise returns the depth-divided coordinates;
under orthographic it never fails and returns the raw camera-relative
coordinates without the divide. -/
theorem C4_project_point_spec (point cam_pos cam_right cam_up cam_forward : Vec3F) :
    (project_point point cam_pos cam_right cam_up cam_forward false = none ↔
      F.ble ((point.vsub cam_pos).dot cam_forward) MIN_VISIBLE_DEPTH = true) ∧
    (F.ble ((point.vsub cam_pos).dot cam_forward) MIN_VISIBLE_DEPTH = false →
      project_point point cam_pos cam_right cam_up cam_forward false =
        some (((point.vsub cam_pos).dot cam_right) /
                ((point.vsub cam_pos).dot cam_forward),
              ((point.vsub cam_pos).dot cam_up) /
                ((point.vsub cam_pos).dot cam_forward),
              (point.vsub cam_pos).dot cam_forward)) ∧
    project_point point cam_pos cam_right cam_up cam_forward true =
      some ((point.vsub cam_pos).dot cam_right,
            (point.vsub cam_pos).dot cam_up,
            (point.vsub cam_pos).dot cam_forward) := by
  refine ⟨?_, ?_, ?_⟩
  · constructor
    · intro h
      by_contra hb
      simp only [Bool.not_eq_true] at hb
      simp [project_point, hb] at h
    · intro h
      simp [project_point, h]
  · intro h
    simp [project_point, h]
  · simp [project_point]

/-- Witness for C4 at a concrete input: the point `(0, 0, -1)` seen from
the identity camera at the origin has depth `1 > 0.1` and projects to
`(0, 0)`. -/
theorem C4_project_point_spec_witness :
    F.ble ((Vec3F.vsub ⟨F.fin 0, F.fin 0, F.fin (-1)⟩ Vec3F.zero).dot
      ⟨F.fin 0, F.fin 0, F.fin (-1)⟩) MIN_VISIBLE_DEPTH = false ∧
    project_point ⟨F.fin 0, F.fin 0, F.fin (-1)⟩ Vec3F.zero
      ⟨F.fin 1, F.fin 0, F.fin 0⟩ ⟨F.fin 0, F.fin 1, F.fin 0⟩
      ⟨F.fin 0, F.fin 0, F.fin (-1)⟩ false =
      some ((Vec3F.vsub ⟨F.fin 0, F.fin 0, F.fin (-1)⟩ Vec3F.zero).dot
              ⟨F.fin 1, F.fin 0, F.fin 0⟩ /
              (Vec3F.vsub ⟨F.fin 0, F.fin 0, F.fin (-1)⟩ Vec3F.zero).dot
              ⟨F.fin 0, F.fin 0, F.fin (-1)⟩,
            (Vec3F.vsub ⟨F.fin 0, F.fin 0, F.fin (-1)⟩ Vec3F.zero).dot
              ⟨F.fin 0, F.fin 1, F.fin 0⟩ /
              (Vec3F.vsub ⟨F.fin 0, F.fin 0, F.fin (-1)⟩ Vec3F.zero).dot
              ⟨F.fin 0, F.fin 0, F.fin (-1)⟩,
            (Vec3F.vsub ⟨F.fin 0, F.fin 0, F.fin (-1)⟩ Vec3F.zero).dot
              ⟨F.fin 0, F.fin 0, F.fin (-1)⟩) :=
  ⟨by with_unfolding_all rfl,
   (C4_project_point_spec ⟨F.fin 0, F.fin 0, F.fin (-1)⟩ Vec3F.zero
      ⟨F.fin 1, F.fin 0, F.fin 0⟩ ⟨F.fin 0, F.fin 1, F.fin 0⟩
      ⟨F.fin 0, F.fin 0, F.fin (-1)⟩).2.1 (by with_unfolding_all rfl)⟩

theorem F.isFin_exists (x : F) (h : x.isFin = true) : ∃ q, x = F.fin q := by
  cases x with
  | fin q => exact ⟨q, rfl⟩
  | inf => simp [F.isFin] at h
  | ninf => simp [F.isFin] at h
  | nan => simp [F.isFin] at h

theorem tauQ_pos : (0 : ℚ) < tauQ := by norm_num [tauQ]

theorem tauQ_eq_two_pi : tauQ = 2 * piQ := by norm_num [tauQ, piQ]

theorem piQ_pos : (0 : ℚ) < piQ := by norm_num [piQ]

/-- The rational-level yaw wrap: `d - TAU * floor((d + PI) / TAU)`. -/
theorem wrapYawF_fin (qd : ℚ) :
    wrapYawF (F.fin qd) = F.fin (qd - tauQ * Int.floor ((qd + piQ) / tauQ)) := by
  have ht : tauQ ≠ 0 := ne_of_gt tauQ_pos
  show F.mulAdd (F.fin tauQ)
    (F.neg (F.floorF ((F.fin qd + F.fin piQ) / F.fin tauQ))) (F.fin qd) = _
  rw [F.hadd_fin, F.hdiv_fin _ _ ht]
  show F.add (F.mul (F.fin tauQ) (F.fin (-(Int.floor ((qd + piQ) / tauQ) : ℚ))))
    (F.fin qd) = _
  rw [F.mul_fin, F.add_fin]
  congr 1
  ring

/-- Range of the rational yaw wrap: the wrapped difference lies in
`[-PI, PI)` (not `(-PI, PI]`). -/
theorem wrapQ_range (qd : ℚ) :
    -piQ ≤ qd - tauQ * Int.floor ((qd + piQ) / tauQ) ∧
    qd - tauQ * Int.floor ((qd + piQ) / tauQ) < piQ := by
  have ht : (0 : ℚ) < tauQ := tauQ_pos
  have h1 : (Int.floor ((qd + piQ) / tauQ) : ℚ) ≤ (qd + piQ) / tauQ :=
    Int.floor_le _
  have h2 : (qd + piQ) / tauQ < Int.floor ((qd + piQ) / tauQ) + 1 :=
    Int.lt_floor_add_one _
  have h1m : (Int.floor ((qd + piQ) / tauQ) : ℚ) * tauQ ≤ qd + piQ :=
    (le_div_iff₀ ht).1 h1
  have h2m : qd + piQ < ((Int.floor ((qd + piQ) / tauQ) : ℚ) + 1) * tauQ :=
    (div_lt_iff₀ ht).1 h2
  have he : tauQ = 2 * piQ := tauQ_eq_two_pi
  constructor
  · nlinarith [h1m]
  · nlinarith [h2m]

/-- Claim C9 (invariant of the move-list state machine): a freshly
constructed `CameraMoveList` is `Ready`; after any tick, a surviving
component in `InProgress` state has a non-empty queue; and an empty queue
always leads to removal of the component rather than to a lingering state. -/
theorem C9_move_list_invariant :
    (∀ ms, (CameraMoveList.new ms).state = MoveState.Ready) ∧
    (∀ (tf : TransFuns) (d : F) (pan : PanOrbit) (q : CameraMoveList)
       (mk : Option ZoomAnimationMarker) (q2 : CameraMoveList),
      (process_camera_move_list tf d pan q mk).queue = some q2 →
      ∀ e sf sp sr sy, q2.state = MoveState.InProgress e sf sp sr sy →
      q2.moves ≠ []) ∧
    (∀ (tf : TransFuns) (d : F) (pan : PanOrbit) (st : MoveState)
       (mk : Option ZoomAnimationMarker),
      (process_camera_move_list tf d pan ⟨[], st⟩ mk).queue = none) := by
  refine ⟨fun ms => rfl, ?_, ?_⟩
  · intro tf d pan q mk q2 hq e sf sp sr sy hst
    obtain ⟨moves, st⟩ := q
    cases moves with
    | nil => simp [process_camera_move_list] at hq
    | cons m rest =>
      cases st with
      | Ready =>
        simp only [process_camera_move_list, Option.some.injEq] at hq
        subst hq
        simp
      | InProgress e0 sf0 sp0 sr0 sy0 =>
        simp only [process_camera_move_list] at hq
        split at hq
        · rw [Option.some.injEq] at hq
          subst hq
          simp at hst
        · rw [Option.some.injEq] at hq
          subst hq
          simp
  · intro tf d pan st mk
    simp [process_camera_move_list]

/-- Witness for C9 at a concrete input: ticking a camera whose queue holds
one in-progress move that finishes this tick yields a `Ready` component with
an empty queue (so the `InProgress` implication is vacuous), and ticking an
empty queue removes the component. -/
theorem C9_move_list_invariant_witness :
    (CameraMoveList.new [moveYawPi]).state = MoveState.Ready ∧
    (process_camera_move_list tf0 (F.fin (1/10)) pan0 ⟨[], MoveState.Ready⟩
      none).queue = none :=
  ⟨C9_move_list_invariant.1 [moveYawPi],
   C9_move_list_invariant.2.2 tf0 (F.fin (1/10)) pan0 MoveState.Ready none⟩

/-- Claim C7: entering `InProgress` snapshots the camera's current orbital
parameters (`target_focus`, `target_pitch`, `target_radius`, `target_yaw`)
as the interpolation origin — for every camera state, not a value stored in
the move — and the interpolation formulas evaluated at `t_interp = 0`
reproduce exactly those start values. -/
theorem C7_snapshot_on_start :
    (∀ (tf : TransFuns) (d : F) (pan : PanOrbit) (m : CameraMove)
       (rest : List CameraMove) (mk : Option ZoomAnimationMarker),
      (process_camera_move_list tf d pan ⟨m :: rest, MoveState.Ready⟩ mk).queue =
        some ⟨m :: rest,
          MoveState.InProgress (F.fin 0) pan.target_focus pan.target_pitch
            pan.target_radius pan.target_yaw⟩) ∧
    (∀ (qd qs : ℚ), F.mulAdd (F.fin qd) (F.fin 0) (F.fin qs) = F.fin qs) ∧
    (∀ (sf tgt : Vec3F), sf.finite = true → tgt.finite = true →
      sf.lerp tgt (F.fin 0) = sf) := by
  refine ⟨fun tf d pan m rest mk => rfl, ?_, ?_⟩
  · intro qd qs
    show F.add (F.mul (F.fin qd) (F.fin 0)) (F.fin qs) = F.fin qs
    rw [F.mul_fin, F.add_fin]
    norm_num
  · intro sf tgt hsf htgt
    simp only [Vec3F.finite, Bool.and_eq_true] at hsf htgt
    obtain ⟨x1, hx1⟩ := F.isFin_exists _ hsf.1.1
    obtain ⟨y1, hy1⟩ := F.isFin_exists _ hsf.1.2
    obtain ⟨z1, hz1⟩ := F.isFin_exists _ hsf.2
    obtain ⟨x2, hx2⟩ := F.isFin_exists _ htgt.1.1
    obtain ⟨y2, hy2⟩ := F.isFin_exists _ htgt.1.2
    obtain ⟨z2, hz2⟩ := F.isFin_exists _ htgt.2
    obtain ⟨sx, sy, sz⟩ := sf
    obtain ⟨tx, ty, tz⟩ := tgt
    simp only at hx1 hy1 hz1 hx2 hy2 hz2
    subst hx1 hy1 hz1 hx2 hy2 hz2
    show Vec3F.vadd _ _ = _
    simp only [Vec3F.vadd, Vec3F.vsub, Vec3F.scale, F.hsub_fin, F.hmul_fin,
      F.hadd_fin]
    norm_num

/-- Witness for C7 at a concrete input: starting `moveYawPi` from `pan0`
snapshots `pan0`'s orbital targets, and the `t_interp = 0` interpolation
formulas reproduce concrete start values. -/
theorem C7_snapshot_on_start_witness :
    (process_camera_move_list tf0 (F.fin (1/10)) pan0
        ⟨[moveYawPi], MoveState.Ready⟩ none).queue =
      some ⟨[moveYawPi],
        MoveState.InProgress (F.fin 0) pan0.target_focus pan0.target_pitch
          pan0.target_radius pan0.target_yaw⟩ ∧
    F.mulAdd (F.fin 7) (F.fin 0) (F.fin 5) = F.fin 5 ∧
    Vec3F.zero.finite = true ∧
    Vec3F.lerp Vec3F.zero ⟨F.fin 1, F.fin 2, F.fin 3⟩ (F.fin 0) = Vec3F.zero :=
  ⟨C7_snapshot_on_start.1 tf0 (F.fin (1/10)) pan0 moveYawPi [] none,
   C7_snapshot_on_start.2.1 7 5,
   by with_unfolding_all rfl,
   C7_snapshot_on_start.2.2 Vec3F.zero ⟨F.fin 1, F.fin 2, F.fin 3⟩
     (by with_unfolding_all rfl) (by with_unfolding_all rfl)⟩

/-- Claim C6: on a tick that reaches `t >= 1` the finishing move is popped
and the state returns to `Ready` on that same tick (with the move-end event
when no zoom marker is present); a `Ready` tick only snapshots and does not
advance the camera pose, so the next move starts interpolating one tick
later; and a tick with an empty queue removes the `CameraMoveList` (and
marker) and triggers `AnimationEnd`, or `ZoomEnd` when a zoom marker is
present. -/
theorem C6_completion_and_removal :
    (∀ (tf : TransFuns) (d : F) (pan : PanOrbit) (m : CameraMove)
       (rest : List CameraMove) (e : F) (sf : Vec3F) (sp sr sy : F)
       (mk : Option ZoomAnimationMarker),
      F.ble (F.fin 1) (tickT (e + d * F.fin 1000) m.durationMs) = true →
      (process_camera_move_list tf d pan
          ⟨m :: rest, MoveState.InProgress e sf sp sr sy⟩ mk).queue =
        some ⟨rest, MoveState.Ready⟩ ∧
      (mk = none →
        (process_camera_move_list tf d pan
            ⟨m :: rest, MoveState.InProgress e sf sp sr sy⟩ mk).events =
          [Event.CameraMoveEnd m])) ∧
    (∀ (tf : TransFuns) (d : F) (pan : PanOrbit) (m : CameraMove)
       (rest : List CameraMove) (mk : Option ZoomAnimationMarker),
      (process_camera_move_list tf d pan ⟨m :: rest, MoveState.Ready⟩ mk).pan.target_focus
          = pan.target_focus ∧
      (process_camera_move_list tf d pan ⟨m :: rest, MoveState.Ready⟩ mk).pan.target_yaw
          = pan.target_yaw ∧
      (process_camera_move_list tf d pan ⟨m :: rest, MoveState.Ready⟩ mk).pan.target_pitch
          = pan.target_pitch ∧
      (process_camera_move_list tf d pan ⟨m :: rest, MoveState.Ready⟩ mk).pan.target_radius
          = pan.target_radius) ∧
    (∀ (tf : TransFuns) (d : F) (pan : PanOrbit) (st : MoveState)
       (z : ZoomAnimationMarker),
      (process_camera_move_list tf d pan ⟨[], st⟩ none).queue = none ∧
      (process_camera_move_list tf d pan ⟨[], st⟩ none).events =
        [Event.AnimationEnd] ∧
      (process_camera_move_list tf d pan ⟨[], st⟩ (some z)).queue = none ∧
      (process_camera_move_list tf d pan ⟨[], st⟩ (some z)).marker = none ∧
      (process_camera_move_list tf d pan ⟨[], st⟩ (some z)).events =
        [Event.ZoomEnd]) := by
  refine ⟨?_, ?_, ?_⟩
  · intro tf d pan m rest e sf sp sr sy mk h
    constructor
    · simp only [process_camera_move_list, h]
      rfl
    · intro hmk
      subst hmk
      simp only [process_camera_move_list, h]
      rfl
  · intro tf d pan m rest mk
    refine ⟨rfl, rfl, rfl, rfl⟩
  · intro tf d pan st z
    refine ⟨rfl, rfl, rfl, rfl, rfl⟩

/-- Witness for C6 at a concrete input: the move `moveYawPi` (100 ms) ticked
with `delta = 0.1 s` from elapsed `0` reaches `t = 1`, is popped with state
`Ready`, and `CameraMoveEnd` fires. -/
theorem C6_completion_and_removal_witness :
    F.ble (F.fin 1)
      (tickT (F.fin 0 + F.fin (1/10) * F.fin 1000) moveYawPi.durationMs) = true ∧
    (process_camera_move_list tf0 (F.fin (1/10)) pan0
        ⟨[moveYawPi], MoveState.InProgress (F.fin 0) Vec3F.zero (F.fin 0)
          (F.fin 1) (F.fin 0)⟩ none).queue = some ⟨[], MoveState.Ready⟩ ∧
    (process_camera_move_list tf0 (F.fin (1/10)) pan0
        ⟨[moveYawPi], MoveState.InProgress (F.fin 0) Vec3F.zero (F.fin 0)
          (F.fin 1) (F.fin 0)⟩ none).events = [Event.CameraMoveEnd moveYawPi] := by
  have hb : F.ble (F.fin 1)
      (tickT (F.fin 0 + F.fin (1/10) * F.fin 1000) moveYawPi.durationMs) = true := by
    with_unfolding_all rfl
  have h := (C6_completion_and_removal.1 tf0 (F.fin (1/10)) pan0 moveYawPi []
    (F.fin 0) Vec3F.zero (F.fin 0) (F.fin 1) (F.fin 0) none) hb
  exact ⟨hb, h.1, h.2 rfl⟩

/-- Claim C2 (amended): on every tick of an in-progress move, including the
final frame, the emitted yaw is `start_yaw + wrapped_yaw_diff * t_interp`
and the emitted pitch is `start_pitch + pitch_diff * t_interp`, where the
wrapped yaw difference is `yaw_diff - TAU * floor((yaw_diff + PI) / TAU)` —
which lies in the half-open interval `[-PI, PI)`, not `(-PI, PI]` as
claimed — and the pitch target is adjusted by `-+TAU` whenever the raw
difference exceeds `PI` in magnitude, the adjusted difference lying in
`[-PI, PI]` whenever the raw difference has magnitude at most `3 * PI`. -/
theorem C2_angle_unwrap_amended :
    (∀ (tf : TransFuns) (d : F) (pan : PanOrbit) (m : CameraMove)
       (rest : List CameraMove) (e : F) (sf : Vec3F) (sp sr sy : F)
       (mk : Option ZoomAnimationMarker),
      (process_camera_move_list tf d pan
          ⟨m :: rest, MoveState.InProgress e sf sp sr sy⟩ mk).pan.target_yaw =
        F.mulAdd (wrapYawF ((m.orbital_params tf).1 - sy))
          (m.easingFn (F.fmin (tickT (e + d * F.fin 1000) m.durationMs) (F.fin 1)))
          sy ∧
      (process_camera_move_list tf d pan
          ⟨m :: rest, MoveState.InProgress e sf sp sr sy⟩ mk).pan.target_pitch =
        F.mulAdd (adjustPitchDiff sp (m.orbital_params tf).2.1)
          (m.easingFn (F.fmin (tickT (e + d * F.fin 1000) m.durationMs) (F.fin 1)))
          sp) ∧
    (∀ qy qs : ℚ,
      wrapYawF (F.fin qy - F.fin qs) =
        F.fin ((qy - qs) - tauQ * Int.floor (((qy - qs) + piQ) / tauQ)) ∧
      -piQ ≤ (qy - qs) - tauQ * Int.floor (((qy - qs) + piQ) / tauQ) ∧
      (qy - qs) - tauQ * Int.floor (((qy - qs) + piQ) / tauQ) < piQ) ∧
    (∀ qs qc : ℚ, ∃ qd : ℚ,
      adjustPitchDiff (F.fin qs) (F.fin qc) = F.fin qd ∧
      (|qc - qs| ≤ piQ → qd = qc - qs) ∧
      (|qc - qs| ≤ 3 * piQ → -piQ ≤ qd ∧ qd ≤ piQ)) := by
  refine ⟨?_, ?_, ?_⟩
  · intro tf d pan m rest e sf sp sr sy mk
    constructor
    · show (if _ then _ else _ : TickResult).pan.target_yaw = _
      split
      · rfl
      · rfl
    · show (if _ then _ else _ : TickResult).pan.target_pitch = _
      split
      · rfl
      · rfl
  · intro qy qs
    rw [F.hsub_fin, wrapYawF_fin]
    exact ⟨rfl, (wrapQ_range (qy - qs)).1, (wrapQ_range (qy - qs)).2⟩
  · intro qs qc
    have hpi : (0 : ℚ) < piQ := piQ_pos
    have htau : tauQ = 2 * piQ := tauQ_eq_two_pi
    show ∃ qd, (let pitch_diff_raw := F.fin qc - F.fin qs
      let pitch_target := if F.blt (F.fin piQ) pitch_diff_raw then
          F.fin qc - F.fin tauQ
        else if F.blt pitch_diff_raw (F.neg (F.fin piQ)) then
          F.fin qc + F.fin tauQ
        else F.fin qc
      pitch_target - F.fin qs) = F.fin qd ∧ _
    rw [F.hsub_fin]
    by_cases h1 : piQ < qc - qs
    · refine ⟨qc - tauQ - qs, ?_, ?_, ?_⟩
      · simp [F.blt, h1, F.hsub_fin]
      · intro habs
        exact absurd h1 (not_lt.2 (abs_le.1 habs).2)
      · intro habs
        have := (abs_le.1 habs).2
        constructor
        · linarith
        · linarith
    · by_cases h2 : qc - qs < -piQ
      · refine ⟨qc + tauQ - qs, ?_, ?_, ?_⟩
        · simp [F.blt, h1, h2, F.neg, F.hadd_fin, F.hsub_fin]
        · intro habs
          exact absurd h2 (not_lt.2 (abs_le.1 habs).1)
        · intro habs
          have := (abs_le.1 habs).1
          constructor
          · linarith
          · linarith
      · refine ⟨qc - qs, ?_, ?_, ?_⟩
        · simp [F.blt, h1, h2, F.neg, F.hsub_fin]
        · intro _
          rfl
        · intro _
          constructor
          · linarith [not_lt.1 h2]
          · linarith [not_lt.1 h1]

/-- Witness for C2 (amended) at concrete inputs: a tick of `moveYawPi`, the
wrap of the concrete difference `PI - 0`, and the pitch adjustment at
concrete differences with magnitude below `PI` and below `3 * PI`. -/
theorem C2_angle_unwrap_amended_witness :
    (process_camera_move_list tf0 (F.fin (1/10)) pan0
        ⟨[moveYawPi], MoveState.InProgress (F.fin 0) Vec3F.zero (F.fin 0)
          (F.fin 1) (F.fin 0)⟩ none).pan.target_yaw =
      F.mulAdd (wrapYawF ((moveYawPi.orbital_params tf0).1 - F.fin 0))
        (moveYawPi.easingFn
          (F.fmin (tickT (F.fin 0 + F.fin (1/10) * F.fin 1000)
            moveYawPi.durationMs) (F.fin 1))) (F.fin 0) ∧
    (∃ qd : ℚ, adjustPitchDiff (F.fin 0) (F.fin piQ) = F.fin qd ∧
      qd = piQ - 0 ∧ -piQ ≤ qd ∧ qd ≤ piQ) := by
  refine ⟨(C2_angle_unwrap_amended.1 tf0 (F.fin (1/10)) pan0 moveYawPi []
    (F.fin 0) Vec3F.zero (F.fin 0) (F.fin 1) (F.fin 0) none).1, ?_⟩
  obtain ⟨qd, heq, hsmall, hrange⟩ := C2_angle_unwrap_amended.2.2 0 piQ
  have habs : |piQ - 0| ≤ piQ := by
    rw [sub_zero, abs_of_pos piQ_pos]
  have habs3 : |piQ - 0| ≤ 3 * piQ := by
    rw [sub_zero, abs_of_pos piQ_pos]
    linarith [piQ_pos]
  exact ⟨qd, heq, hsmall habs, (hrange habs3).1, (hrange habs3).2⟩

/-- Counterexample to Claim C2 as stated: at the concrete tick that finishes
a `ToOrbit` move from `start_yaw = 0` to `yaw = PI`, the wrapped yaw
difference produced by the floor-subtraction formula is exactly `-PI`
(hence the emitted yaw at `t_interp = 1` is `-PI`), and `-PI` does not lie
in the claimed interval `(-PI, PI]`. -/
theorem C2_angle_unwrap_counterexample :
    (process_camera_move_list tf0 (F.fin (1/10)) pan0
        ⟨[moveYawPi], MoveState.InProgress (F.fin 0) Vec3F.zero (F.fin 0)
          (F.fin 1) (F.fin 0)⟩ none).pan.target_yaw = F.fin (-piQ) ∧
    wrapYawF (F.fin piQ - F.fin 0) = F.fin (-piQ) ∧
    ¬(-piQ < -piQ ∧ -piQ ≤ piQ) := by
  refine ⟨by with_unfolding_all rfl, by with_unfolding_all rfl, ?_⟩
  simp

theorem F.blt_nan_right (x : F) : F.blt x F.nan = false := by
  cases x <;> rfl

/-- Boundary aspect of an empty accumulator: `(-inf - inf) / (-inf - inf)`
is `nan`. -/
theorem boundary_nil : ((F.ninf - F.inf : F) / (F.ninf - F.inf) : F) = F.nan := rfl

/-- With no points projected, the horizontal margins are `inf - (-h)` and
`h - (-inf)`; their `f32::min` is `inf` or `nan` depending on the half
extent `h`. -/
theorem fmin_margins_nil (h : F) :
    F.fmin (F.inf - h.neg) (h - F.ninf) = F.inf ∨
    F.fmin (F.inf - h.neg) (h - F.ninf) = F.nan := by
  cases h
  · exact Or.inl rfl
  · exact Or.inl rfl
  · exact Or.inr rfl
  · exact Or.inr rfl

/-- Same as `fmin_margins_nil` with the arguments in the vertical order
(`top = h - (-inf)` first, `bottom = inf - (-h)` second). -/
theorem fmin_margins_nil_v (h : F) :
    F.fmin (h - F.ninf) (F.inf - h.neg) = F.inf ∨
    F.fmin (h - F.ninf) (F.inf - h.neg) = F.nan := by
  cases h
  · exact Or.inl rfl
  · exact Or.inl rfl
  · exact Or.inr rfl
  · exact Or.inr rfl

/-- The margin error `|cur - t|` never tests below an infinite best error
when `cur` is `inf` or `nan`. -/
theorem blt_err_inf (c t : F) (hc : c = F.inf ∨ c = F.nan) :
    F.blt (F.abs (c - t)) F.inf = false := by
  rcases hc with rfl | rfl <;> cases t <;> rfl

/-- With an empty point list and a perspective projection, the very first
binary-search iteration converges (the search interval is already `0`), the
best-seen pair is never updated (the margin error is `inf` or `nan`), and
the loop returns the initial best values. -/
theorem fitStep_nil (tf : TransFuns) (center : Vec3F) (b : CamBasis)
    (p : PerspectiveProj) (aspect : F) (ofd : Option F) (zm : F)
    (br : F) (bf : Vec3F) :
    fitStep tf [] center b (.Perspective p) aspect ofd zm
      ⟨F.fin 0, F.fin 0, br, bf, F.inf⟩ = .done (br, bf) := by
  simp only [fitStep, ScreenSpaceBounds.from_points,
    ProjectionParams.from_projection, foldPoints, initAcc,
    build_test_projection]
  simp only [boundary_nil, F.blt_nan_right, Bool.false_eq_true, if_false]
  rcases fmin_margins_nil (tf.tan (p.fov * F.fin (1 / 2)) * aspect) with hH | hH <;>
    rcases fmin_margins_nil_v (tf.tan (p.fov * F.fin (1 / 2))) with hV | hV <;>
      simp only [hH, hV,
        show F.blt F.inf F.inf = false from rfl,
        show F.blt F.inf F.nan = false from rfl,
        show F.blt F.nan F.inf = false from rfl,
        show F.blt F.nan F.nan = false from rfl,
        blt_err_inf _ _ (Or.inl rfl), blt_err_inf _ _ (Or.inr rfl),
        Bool.false_eq_true, if_false] <;>
      split <;>
        simp [F.blt, F.hadd_fin, F.hmul_fin, F.hsub_fin]

/-- Claim C1 (amended): with a perspective projection (whose aspect ratio is
always available) and an empty point list, `calculate_fit` does NOT return
`None`: it returns the initial best-seen pair — radius
`2 * object_radius = 0` and focus `geometric_center` — because the
convergence check fires on the first iteration of the degenerate zero-width
search interval while the best-seen values never update.  `None` is
reserved for an unavailable aspect ratio (an unsupported projection
variant, or an orthographic projection with near-zero area height). -/
theorem C1_empty_fit_returns_default (tf : TransFuns) (center : Vec3F)
    (b : CamBasis) (margin : F) (p : PerspectiveProj)
    (viewport_size : Option (F × F)) :
    calculate_fit tf [] center b margin (.Perspective p) viewport_size =
      some (F.fin 0, center) := by
  have h0 : ∀ c : ℚ, (F.fin 0 * F.fin c : F) = F.fin 0 := by
    intro c
    rw [F.hmul_fin]
    norm_num
  have hfl : ∀ A : F,
      fitLoop tf [] center b (.Perspective p) A none
        (zoom_margin_multiplier margin) MAX_ITERATIONS
        ⟨F.fin 0 * F.fin (1/10), F.fin 0 * F.fin 100, F.fin 0 * F.fin 2,
          center, F.inf⟩ = (F.fin 0, center) := by
    intro A
    rw [h0, h0, h0, show MAX_ITERATIONS = 199 + 1 from rfl, fitLoop,
      fitStep_nil]
  have hstep : calculate_fit tf [] center b margin (.Perspective p)
      viewport_size =
      some (fitLoop tf [] center b (.Perspective p)
        (match viewport_size with | some s => s.1 / s.2 | none => p.aspect)
        none (zoom_margin_multiplier margin) MAX_ITERATIONS
        ⟨F.fin 0 * F.fin (1/10), F.fin 0 * F.fin 100, F.fin 0 * F.fin 2,
          center, F.inf⟩) := rfl
  rw [hstep, hfl]

/-- Counterexample to Claim C1 as stated: at the concrete call with an empty
point slice (perspective projection, identity pose, viewport `800 x 600`),
`calculate_fit` does not return `None` — it returns
`Some (radius 0, geometric center)`. -/
theorem C1_counterexample :
    calculate_fit tf0 [] Vec3F.zero idBasis (F.fin 0) persp0
      (some (F.fin 800, F.fin 600)) = some (F.fin 0, Vec3F.zero) ∧
    calculate_fit tf0 [] Vec3F.zero idBasis (F.fin 0) persp0
      (some (F.fin 800, F.fin 600)) ≠ none := by
  constructor
  · with_unfolding_all rfl
  · intro h
    rw [show calculate_fit tf0 [] Vec3F.zero idBasis (F.fin 0) persp0
      (some (F.fin 800, F.fin 600)) = some (F.fin 0, Vec3F.zero) from
      by with_unfolding_all rfl] at h
    exact Option.noConfusion h

/-- Claim C5 (amended): in the margin-satisfaction test the compared pair is
selected by the smaller per-axis minimum margin — `min(left, right)` versus
`min(top, bottom)` — together with that axis's own target margin (NOT by
the aspect-ratio comparison); the aspect-ratio comparison instead
determines how the target margins themselves are computed in
`from_points`: the axis whose box/screen ratio is larger receives target
extent `half_extent / zoom_multiplier`, the other axis's target is derived
through the projected box's own aspect ratio. -/
theorem C5_margin_selection_amended :
    (∀ (b : ScreenSpaceBounds) (tol : F),
      b.is_fitted tol =
        if F.blt (F.fmin b.left_margin b.right_margin)
            (F.fmin b.top_margin b.bottom_margin) then
          F.blt (F.abs (F.fmin b.left_margin b.right_margin -
            b.target_margin_x)) tol
        else
          F.blt (F.abs (F.fmin b.top_margin b.bottom_margin -
            b.target_margin_y)) tol) ∧
    (∀ (tf : TransFuns) (points : List Vec3F) (cam_pos : Vec3F)
       (bs : CamBasis) (projection : Projection) (aspect zm : F)
       (b : ScreenSpaceBounds),
      ScreenSpaceBounds.from_points tf points cam_pos bs projection aspect zm =
        some b →
      b.target_margin_x = b.half_extent_x -
        (if F.blt (b.half_extent_x / b.half_extent_y)
            ((b.max_norm_x - b.min_norm_x) / (b.max_norm_y - b.min_norm_y)) then
          b.half_extent_x / zm
        else
          (b.half_extent_y / zm) *
            ((b.max_norm_x - b.min_norm_x) / (b.max_norm_y - b.min_norm_y))) ∧
      b.target_margin_y = b.half_extent_y -
        (if F.blt (b.half_extent_x / b.half_extent_y)
            ((b.max_norm_x - b.min_norm_x) / (b.max_norm_y - b.min_norm_y)) then
          (b.half_extent_x / zm) /
            ((b.max_norm_x - b.min_norm_x) / (b.max_norm_y - b.min_norm_y))
        else
          b.half_extent_y / zm)) := by
  constructor
  · intro b tol
    show (let h_min := F.fmin b.left_margin b.right_margin
          let v_min := F.fmin b.top_margin b.bottom_margin
          let ctm := if F.blt h_min v_min then (h_min, b.target_margin_x)
            else (v_min, b.target_margin_y)
          F.blt (F.abs (ctm.1 - ctm.2)) tol) = _
    by_cases h : F.blt (F.fmin b.left_margin b.right_margin)
        (F.fmin b.top_margin b.bottom_margin) = true
    · simp only [h, if_true]
    · simp only [Bool.not_eq_true] at h
      simp only [h, Bool.false_eq_true, if_false]
  · intro tf points cam_pos bs projection aspect zm b hb
    unfold ScreenSpaceBounds.from_points at hb
    cases hpp : ProjectionParams.from_projection tf projection aspect with
    | none =>
      simp only [hpp] at hb
      exact Option.noConfusion hb
    | some pp =>
      simp only [hpp] at hb
      cases hacc : foldPoints cam_pos bs.right bs.up bs.back.vneg pp.is_ortho
          points initAcc with
      | none =>
        simp only [hacc] at hb
        exact Option.noConfusion hb
      | some acc =>
        simp only [hacc, Option.some.injEq] at hb
        subst hb
        by_cases hwc : F.blt (pp.half_extent_x / pp.half_extent_y)
            ((acc.max_norm_x - acc.min_norm_x) /
              (acc.max_norm_y - acc.min_norm_y)) = true
        · simp only [hwc, if_true]
          exact ⟨trivial, trivial⟩
        · simp only [Bool.not_eq_true] at hwc
          simp only [hwc, Bool.false_eq_true, if_false]
          exact ⟨trivial, trivial⟩

/-- The concrete bounds of `pts5` under `persp0` with viewport aspect `2`:
half extents `2 x 1`, projected box `[-1/2, 1/2] x [-1/5, 1/5]` at depth
`1`, so the horizontal min margin is `3/2`, the vertical min margin is
`4/5`, and the aspect comparison (box `5/2` versus screen `2`) says width
constrains, giving `target_margin_x = 0`, `target_margin_y = 1/5`. -/
theorem from_points_pts5 :
    ScreenSpaceBounds.from_points tf0 pts5 Vec3F.zero idBasis persp0
      (F.fin 2) (F.fin 1) =
    some ⟨F.fin (3/2), F.fin (3/2), F.fin (4/5), F.fin (4/5), F.fin 0,
      F.fin (1/5), F.fin (-1/2), F.fin (1/2), F.fin (-1/5), F.fin (1/5),
      F.fin 1, F.fin 1, F.fin 2, F.fin 1⟩ := by
  with_unfolding_all rfl

/-- Counterexample to Claim C5 as stated: on the concrete bounds of
`pts5` (where the aspect-ratio comparison says the horizontal axis
constrains, but the vertical minimum margin `4/5` is smaller than the
horizontal one `3/2`), the source's `is_fitted` with tolerance `1` compares
the vertical pair (`|4/5 - 1/5| = 3/5 < 1`, fitted), while the
spec-described aspect-ratio selection compares the horizontal pair
(`|3/2 - 0| = 3/2 >= 1`, not fitted): the two disagree, so the
margin-satisfaction test does not use the aspect-ratio-constraining axis. -/
theorem C5_counterexample :
    (ScreenSpaceBounds.from_points tf0 pts5 Vec3F.zero idBasis persp0
        (F.fin 2) (F.fin 1)).map (fun b => b.is_fitted (F.fin 1)) =
      some true ∧
    (ScreenSpaceBounds.from_points tf0 pts5 Vec3F.zero idBasis persp0
        (F.fin 2) (F.fin 1)).map (fun b => is_fittedSpecC5 b (F.fin 1)) =
      some false := by
  constructor
  · with_unfolding_all rfl
  · with_unfolding_all rfl

/-- Witness for C5 (amended) at the concrete bounds of `pts5`: the
`is_fitted` selection formula evaluates through the smaller (vertical)
minimum margin, and the target margins of `from_points` satisfy the
aspect-rule equations. -/
theorem C5_margin_selection_amended_witness :
    (ScreenSpaceBounds.is_fitted ⟨F.fin (3/2), F.fin (3/2), F.fin (4/5),
        F.fin (4/5), F.fin 0, F.fin (1/5), F.fin (-1/2), F.fin (1/2),
        F.fin (-1/5), F.fin (1/5), F.fin 1, F.fin 1, F.fin 2, F.fin 1⟩
        (F.fin 1) =
      if F.blt (F.fmin (F.fin (3/2)) (F.fin (3/2)))
          (F.fmin (F.fin (4/5)) (F.fin (4/5))) then
        F.blt (F.abs (F.fmin (F.fin (3/2)) (F.fin (3/2)) - F.fin 0)) (F.fin 1)
      else
        F.blt (F.abs (F.fmin (F.fin (4/5)) (F.fin (4/5)) - F.fin (1/5)))
          (F.fin 1)) ∧
    ((⟨F.fin (3/2), F.fin (3/2), F.fin (4/5), F.fin (4/5), F.fin 0,
        F.fin (1/5), F.fin (-1/2), F.fin (1/2), F.fin (-1/5), F.fin (1/5),
        F.fin 1, F.fin 1, F.fin 2, F.fin 1⟩ : ScreenSpaceBounds).target_margin_x
        = F.fin 0) := by
  constructor
  · exact C5_margin_selection_amended.1 ⟨F.fin (3/2), F.fin (3/2),
      F.fin (4/5), F.fin (4/5), F.fin 0, F.fin (1/5), F.fin (-1/2),
      F.fin (1/2), F.fin (-1/5), F.fin (1/5), F.fin 1, F.fin 1, F.fin 2,
      F.fin 1⟩ (F.fin 1)
  · have h := (C5_margin_selection_amended.2 tf0 pts5 Vec3F.zero idBasis
      persp0 (F.fin 2) (F.fin 1) _ from_points_pts5).1
    rw [h]
    with_unfolding_all rfl

theorem Vec3F.vsub_finite (a b : Vec3F) (ha : a.finite = true)
    (hb : b.finite = true) : (a.vsub b).finite = true := by
  obtain ⟨ax, ay, az⟩ := a
  obtain ⟨bx, by0, bz⟩ := b
  simp only [Vec3F.finite, Bool.and_eq_true] at ha hb
  obtain ⟨qa1, h1⟩ := F.isFin_exists _ ha.1.1
  obtain ⟨qa2, h2⟩ := F.isFin_exists _ ha.1.2
  obtain ⟨qa3, h3⟩ := F.isFin_exists _ ha.2
  obtain ⟨qb1, g1⟩ := F.isFin_exists _ hb.1.1
  obtain ⟨qb2, g2⟩ := F.isFin_exists _ hb.1.2
  obtain ⟨qb3, g3⟩ := F.isFin_exists _ hb.2
  subst h1 h2 h3 g1 g2 g3
  simp [Vec3F.vsub, Vec3F.finite, F.hsub_fin, F.isFin]

theorem Vec3F.vneg_finite (a : Vec3F) (ha : a.finite = true) :
    a.vneg.finite = true := by
  obtain ⟨ax, ay, az⟩ := a
  simp only [Vec3F.finite, Bool.and_eq_true] at ha
  obtain ⟨qa1, h1⟩ := F.isFin_exists _ ha.1.1
  obtain ⟨qa2, h2⟩ := F.isFin_exists _ ha.1.2
  obtain ⟨qa3, h3⟩ := F.isFin_exists _ ha.2
  subst h1 h2 h3
  simp [Vec3F.vneg, Vec3F.finite, F.neg, F.isFin]

theorem Vec3F.dot_fin (a b : Vec3F) (ha : a.finite = true)
    (hb : b.finite = true) : ∃ q : ℚ, a.dot b = F.fin q := by
  obtain ⟨ax, ay, az⟩ := a
  obtain ⟨bx, by0, bz⟩ := b
  simp only [Vec3F.finite, Bool.and_eq_true] at ha hb
  obtain ⟨qa1, h1⟩ := F.isFin_exists _ ha.1.1
  obtain ⟨qa2, h2⟩ := F.isFin_exists _ ha.1.2
  obtain ⟨qa3, h3⟩ := F.isFin_exists _ ha.2
  obtain ⟨qb1, g1⟩ := F.isFin_exists _ hb.1.1
  obtain ⟨qb2, g2⟩ := F.isFin_exists _ hb.1.2
  obtain ⟨qb3, g3⟩ := F.isFin_exists _ hb.2
  subst h1 h2 h3 g1 g2 g3
  exact ⟨qa1 * qb1 + qa2 * qb2 + qa3 * qb3,
    by simp [Vec3F.dot, F.hmul_fin, F.hadd_fin]⟩

/-- A perspective projection of a point that passes the behind-camera check
has a finite depth exceeding `1/10`, and finite normalised coordinates. -/
theorem project_point_accepted (point cam_pos r u fwd : Vec3F)
    (hp : point.finite = true) (hc : cam_pos.finite = true)
    (hr : r.finite = true) (hu : u.finite = true) (hf : fwd.finite = true)
    (nx ny d : F)
    (h : project_point point cam_pos r u fwd false = some (nx, ny, d)) :
    ∃ qd qx qy : ℚ, d = F.fin qd ∧ 1/10 < qd ∧ nx = F.fin qx ∧
      ny = F.fin qy := by
  have hrel : (point.vsub cam_pos).finite = true := Vec3F.vsub_finite _ _ hp hc
  obtain ⟨qd, hqd⟩ := Vec3F.dot_fin (point.vsub cam_pos) fwd hrel hf
  obtain ⟨qx, hqx⟩ := Vec3F.dot_fin (point.vsub cam_pos) r hrel hr
  obtain ⟨qy, hqy⟩ := Vec3F.dot_fin (point.vsub cam_pos) u hrel hu
  unfold project_point at h
  simp only [Bool.not_false, Bool.true_and, hqd, hqx, hqy, Bool.false_eq_true,
    if_false] at h
  by_cases hble : F.ble (F.fin qd) MIN_VISIBLE_DEPTH = true
  · simp [hble] at h
  · simp only [Bool.not_eq_true] at hble
    simp only [hble, Bool.false_eq_true, if_false, Option.some.injEq,
      Prod.mk.injEq] at h
    have hlt : 1/10 < qd := by
      have h10 := hble
      simp only [F.ble, MIN_VISIBLE_DEPTH, decide_eq_false_iff_not,
        not_le] at h10
      exact h10
    have hne : qd ≠ 0 := by
      intro h0
      rw [h0] at hlt
      norm_num at hlt
    refine ⟨qd, qx / qd, qy / qd, ?_, hlt, ?_, ?_⟩
    · rw [← h.2.2]
    · rw [← h.1, F.hdiv_fin _ _ hne]
    · rw [← h.2.1, F.hdiv_fin _ _ hne]

/-- One fold step preserves the depth invariant when the incoming depth is
finite and exceeds `1/10`. -/
theorem stepAcc_depthsOk (acc : BoundsAcc) (nx ny d : F) (hacc : depthsOk acc)
    (qd : ℚ) (hd : d = F.fin qd) (hq : 1/10 < qd) :
    depthsOk (stepAcc acc nx ny d) := by
  subst hd
  simp only [stepAcc]
  split_ifs <;>
    refine ⟨?_, ?_, ?_, ?_⟩ <;>
      first
      | exact ⟨qd, rfl, hq⟩
      | exact hacc.1
      | exact hacc.2.1
      | exact hacc.2.2.1
      | exact hacc.2.2.2

/-- The first accepted point establishes the depth invariant from the
initial accumulator. -/
theorem stepAcc_init_depthsOk (nx ny d : F) (qx qy qd : ℚ)
    (hx : nx = F.fin qx) (hy : ny = F.fin qy) (hd : d = F.fin qd)
    (hq : 1/10 < qd) : depthsOk (stepAcc initAcc nx ny d) := by
  subst hx hy hd
  show depthsOk (stepAcc ⟨.inf, .ninf, .inf, .ninf, .fin 0, .fin 0, .fin 0,
    .fin 0⟩ (F.fin qx) (F.fin qy) (F.fin qd))
  simp only [stepAcc]
  simp only [show F.blt (F.fin qx) F.inf = true from rfl,
    show F.blt F.ninf (F.fin qx) = true from rfl,
    show F.blt (F.fin qy) F.inf = true from rfl,
    show F.blt F.ninf (F.fin qy) = true from rfl, if_true]
  exact ⟨⟨qd, rfl, hq⟩, ⟨qd, rfl, hq⟩, ⟨qd, rfl, hq⟩, ⟨qd, rfl, hq⟩⟩

/-- The projection fold preserves the depth invariant over any list of
finite points (perspective case). -/
theorem foldPoints_depthsOk (cam_pos r u fwd : Vec3F)
    (hc : cam_pos.finite = true) (hr : r.finite = true)
    (hu : u.finite = true) (hf : fwd.finite = true) :
    ∀ (pts : List Vec3F) (acc acc2 : BoundsAcc),
      pts.all Vec3F.finite = true → depthsOk acc →
      foldPoints cam_pos r u fwd false pts acc = some acc2 →
      depthsOk acc2 := by
  intro pts
  induction pts with
  | nil =>
    intro acc acc2 _ hacc hfold
    simp only [foldPoints, Option.some.injEq] at hfold
    subst hfold
    exact hacc
  | cons pt rest ih =>
    intro acc acc2 hall hacc hfold
    simp only [List.all_cons, Bool.and_eq_true] at hall
    unfold foldPoints at hfold
    cases hproj : project_point pt cam_pos r u fwd false with
    | none =>
      rw [hproj] at hfold
      exact Option.noConfusion hfold
    | some t =>
      obtain ⟨nx, ny, d⟩ := t
      rw [hproj] at hfold
      obtain ⟨qd, qx, qy, hqd, hlt, _, _⟩ := project_point_accepted pt cam_pos
        r u fwd hall.1 hc hr hu hf nx ny d hproj
      exact ih _ _ hall.2 (stepAcc_depthsOk acc nx ny d hacc qd hqd hlt) hfold

/-- Claim C10: under a perspective projection, for every non-empty list of
finite points that `from_points` accepts, all four recorded extremal depths
exceed `MIN_VISIBLE_DEPTH = 1/10`, so the harmonic-mean centering-depth
denominators `d1 + d2` are strictly positive and the divisions produce
finite values (no division by zero); with an empty point list both
denominators are `0 + 0` and the centering depths are `nan`. -/
theorem C10_centering_depths :
    (∀ (tf : TransFuns) (p : PerspectiveProj) (points : List Vec3F)
       (cam_pos : Vec3F) (bs : CamBasis) (aspect zm : F)
       (b : ScreenSpaceBounds),
      points ≠ [] → points.all Vec3F.finite = true →
      cam_pos.finite = true → bs.right.finite = true → bs.up.finite = true →
      bs.back.finite = true →
      ScreenSpaceBounds.from_points tf points cam_pos bs (.Perspective p)
        aspect zm = some b →
      ∃ d1 d2 d3 d4 : ℚ,
        (1/10 < d1 ∧ 1/10 < d2 ∧ 1/10 < d3 ∧ 1/10 < d4) ∧
        0 < d1 + d2 ∧ 0 < d3 + d4 ∧
        b.centering_depth_x = F.fin (2 * d1 * d2 / (d1 + d2)) ∧
        b.centering_depth_y = F.fin (2 * d3 * d4 / (d3 + d4))) ∧
    (∀ (tf : TransFuns) (p : PerspectiveProj) (cam_pos : Vec3F)
       (bs : CamBasis) (aspect zm : F),
      ∃ b : ScreenSpaceBounds,
        ScreenSpaceBounds.from_points tf [] cam_pos bs (.Perspective p)
          aspect zm = some b ∧
        b.centering_depth_x = F.nan ∧ b.centering_depth_y = F.nan) := by
  constructor
  · intro tf p points cam_pos bs aspect zm b hne hall hc hr hu hback hb
    unfold ScreenSpaceBounds.from_points at hb
    rw [show ProjectionParams.from_projection tf (.Perspective p) aspect =
      some ⟨tf.tan (p.fov * F.fin (1/2)) * aspect,
        tf.tan (p.fov * F.fin (1/2)), false⟩ from rfl] at hb
    cases hacc : foldPoints cam_pos bs.right bs.up bs.back.vneg false points
        initAcc with
    | none =>
      simp only [hacc] at hb
      exact Option.noConfusion hb
    | some acc =>
      simp only [hacc, Option.some.injEq] at hb
      have hdok : depthsOk acc := by
        cases points with
        | nil => exact absurd rfl hne
        | cons pt rest =>
          simp only [List.all_cons, Bool.and_eq_true] at hall
          unfold foldPoints at hacc
          cases hproj : project_point pt cam_pos bs.right bs.up bs.back.vneg
              false with
          | none =>
            rw [hproj] at hacc
            exact Option.noConfusion hacc
          | some t =>
            obtain ⟨nx, ny, d⟩ := t
            rw [hproj] at hacc
            obtain ⟨qd, qx, qy, hqd, hlt, hqx, hqy⟩ := project_point_accepted
              pt cam_pos bs.right bs.up bs.back.vneg hall.1 hc hr hu
              (Vec3F.vneg_finite _ hback) nx ny d hproj
            exact foldPoints_depthsOk cam_pos bs.right bs.up bs.back.vneg hc
              hr hu (Vec3F.vneg_finite _ hback) rest _ acc hall.2
              (stepAcc_init_depthsOk nx ny d qx qy qd hqx hqy hqd hlt) hacc
      obtain ⟨⟨d1, he1, h1⟩, ⟨d2, he2, h2⟩, ⟨d3, he3, h3⟩, ⟨d4, he4, h4⟩⟩ :=
        hdok
      have hs12 : (0 : ℚ) < d1 + d2 := by linarith
      have hs34 : (0 : ℚ) < d3 + d4 := by linarith
      refine ⟨d1, d2, d3, d4, ⟨h1, h2, h3, h4⟩, hs12, hs34, ?_, ?_⟩
      · rw [← hb]
        show F.fin 2 * acc.min_x_depth * acc.max_x_depth /
          (acc.min_x_depth + acc.max_x_depth) = _
        rw [he1, he2, F.hmul_fin, F.hmul_fin, F.hadd_fin,
          F.hdiv_fin _ _ (ne_of_gt hs12)]
      · rw [← hb]
        show F.fin 2 * acc.min_y_depth * acc.max_y_depth /
          (acc.min_y_depth + acc.max_y_depth) = _
        rw [he3, he4, F.hmul_fin, F.hmul_fin, F.hadd_fin,
          F.hdiv_fin _ _ (ne_of_gt hs34)]
  · intro tf p cam_pos bs aspect zm
    refine ⟨_, rfl, ?_, ?_⟩
    · show F.fin 2 * F.fin 0 * F.fin 0 / (F.fin 0 + F.fin 0) = F.nan
      rw [F.hmul_fin, F.hmul_fin, F.hadd_fin]
      show F.div (F.fin (2 * 0 * 0)) (F.fin (0 + 0)) = F.nan
      norm_num [F.div]
    · show F.fin 2 * F.fin 0 * F.fin 0 / (F.fin 0 + F.fin 0) = F.nan
      rw [F.hmul_fin, F.hmul_fin, F.hadd_fin]
      show F.div (F.fin (2 * 0 * 0)) (F.fin (0 + 0)) = F.nan
      norm_num [F.div]

/-- Witness for C10 at a concrete input: the two points of `pts5` are
finite and accepted, and the resulting centering depths are finite harmonic
means of depths exceeding `1/10`. -/
theorem C10_centering_depths_witness :
    ∃ d1 d2 d3 d4 : ℚ,
      (1/10 < d1 ∧ 1/10 < d2 ∧ 1/10 < d3 ∧ 1/10 < d4) ∧
      0 < d1 + d2 ∧ 0 < d3 + d4 ∧
      (⟨F.fin (3/2), F.fin (3/2), F.fin (4/5), F.fin (4/5), F.fin 0,
        F.fin (1/5), F.fin (-1/2), F.fin (1/2), F.fin (-1/5), F.fin (1/5),
        F.fin 1, F.fin 1, F.fin 2, F.fin 1⟩ : ScreenSpaceBounds).centering_depth_x
        = F.fin (2 * d1 * d2 / (d1 + d2)) ∧
      (⟨F.fin (3/2), F.fin (3/2), F.fin (4/5), F.fin (4/5), F.fin 0,
        F.fin (1/5), F.fin (-1/2), F.fin (1/2), F.fin (-1/5), F.fin (1/5),
        F.fin 1, F.fin 1, F.fin 2, F.fin 1⟩ : ScreenSpaceBounds).centering_depth_y
        = F.fin (2 * d3 * d4 / (d3 + d4)) := by
  refine C10_centering_depths.1 tf0
    ⟨F.fin (piQ / 2), F.fin 1, F.fin (1 / 10), F.fin 1000⟩ pts5 Vec3F.zero
    idBasis (F.fin 2) (F.fin 1) _ (by simp [pts5])
    (by with_unfolding_all rfl) (by with_unfolding_all rfl)
    (by with_unfolding_all rfl) (by with_unfolding_all rfl)
    (by with_unfolding_all rfl) from_points_pts5

/-- The instrumented binary-search loop executes at most `fuel` iterations
and computes the same result as the plain loop. -/
theorem fitLoopSteps_spec (tf : TransFuns) (points : List Vec3F)
    (gc : Vec3F) (b : CamBasis) (projection : Projection) (aspect : F)
    (ofd : Option F) (zm : F) :
    ∀ (n : Nat) (s : SearchState),
      (fitLoopSteps tf points gc b projection aspect ofd zm n s).2 ≤ n ∧
      (fitLoopSteps tf points gc b projection aspect ofd zm n s).1 =
        fitLoop tf points gc b projection aspect ofd zm n s := by
  intro n
  induction n with
  | zero => exact fun s => ⟨Nat.le_refl 0, rfl⟩
  | succ n ih =>
    intro s
    simp only [fitLoopSteps, fitLoop]
    cases hstep : fitStep tf points gc b projection aspect ofd zm s with
    | done out => exact ⟨Nat.succ_le_succ (Nat.zero_le n), rfl⟩
    | next s2 => exact ⟨Nat.succ_le_succ (ih s2).1, (ih s2).2⟩

/-- The instrumented centering loop executes at most `fuel` iterations and
computes the same focus as the plain loop. -/
theorem centeringGoSteps_spec (tf : TransFuns) (points : List Vec3F)
    (b : CamBasis) (projection : Projection) (aspect : F) (cd : F) :
    ∀ (n : Nat) (f : Vec3F),
      (centeringGoSteps tf points b projection aspect cd n f).2 ≤ n ∧
      (centeringGoSteps tf points b projection aspect cd n f).1 =
        centeringGo tf points b projection aspect cd n f := by
  intro n
  induction n with
  | zero => exact fun f => ⟨Nat.le_refl 0, rfl⟩
  | succ n ih =>
    intro f
    simp only [centeringGoSteps, centeringGo]
    cases hfp : ScreenSpaceBounds.from_points tf points
        (f.vadd (b.back.scale cd)) b projection aspect (F.fin 1) with
    | none => exact ⟨Nat.succ_le_succ (Nat.zero_le n), rfl⟩
    | some bounds =>
      by_cases hcc : (F.blt (F.abs (bounds.center).1) CENTERING_TOLERANCE &&
          F.blt (F.abs (bounds.center).2) CENTERING_TOLERANCE) = true
      · simp only [hcc, if_true]
        exact ⟨Nat.succ_le_succ (Nat.zero_le n), trivial⟩
      · simp only [Bool.not_eq_true] at hcc
        simp only [hcc, Bool.false_eq_true, if_false]
        refine ⟨Nat.succ_le_succ (ih _).1, (ih _).2⟩

/-- Claim C3: `calculate_fit` terminates on every input.  The outer binary
search executes at most its fuel (`MAX_ITERATIONS = 200`) iterations —
measured by the instrumented loop, which provably computes the same result
— and returns immediately (one iteration) whenever the loop body signals
convergence (interval below `0.001`); the inner focus-centering loop
likewise executes at most its fuel (`CENTERING_MAX_ITERATIONS = 10`)
iterations; and `calculate_fit` always returns a value (`none` or some
pair), never diverging or panicking. -/
theorem C3_termination :
    (∀ (tf : TransFuns) (points : List Vec3F) (gc : Vec3F) (b : CamBasis)
       (projection : Projection) (aspect : F) (ofd : Option F) (zm : F)
       (n : Nat) (s : SearchState),
      (fitLoopSteps tf points gc b projection aspect ofd zm n s).2 ≤ n ∧
      (fitLoopSteps tf points gc b projection aspect ofd zm n s).1 =
        fitLoop tf points gc b projection aspect ofd zm n s) ∧
    (∀ (tf : TransFuns) (points : List Vec3F) (gc : Vec3F) (b : CamBasis)
       (projection : Projection) (aspect : F) (ofd : Option F) (zm : F)
       (n : Nat) (s : SearchState) (out : F × Vec3F),
      fitStep tf points gc b projection aspect ofd zm s = .done out →
      fitLoopSteps tf points gc b projection aspect ofd zm (n + 1) s =
        (out, 1)) ∧
    (∀ (tf : TransFuns) (points : List Vec3F) (b : CamBasis)
       (projection : Projection) (aspect : F) (cd : F) (n : Nat) (f : Vec3F),
      (centeringGoSteps tf points b projection aspect cd n f).2 ≤ n ∧
      (centeringGoSteps tf points b projection aspect cd n f).1 =
        centeringGo tf points b projection aspect cd n f) ∧
    (MAX_ITERATIONS = 200 ∧ CENTERING_MAX_ITERATIONS = 10) ∧
    (∀ (tf : TransFuns) (points : List Vec3F) (gc : Vec3F) (b : CamBasis)
       (margin : F) (projection : Projection)
       (viewport_size : Option (F × F)),
      calculate_fit tf points gc b margin projection viewport_size = none ∨
      ∃ rf : F × Vec3F,
        calculate_fit tf points gc b margin projection viewport_size =
          some rf) := by
  refine ⟨?_, ?_, ?_, ⟨rfl, rfl⟩, ?_⟩
  · intro tf points gc b projection aspect ofd zm n s
    exact fitLoopSteps_spec tf points gc b projection aspect ofd zm n s
  · intro tf points gc b projection aspect ofd zm n s out h
    simp only [fitLoopSteps, h]
  · intro tf points b projection aspect cd n f
    exact centeringGoSteps_spec tf points b projection aspect cd n f
  · intro tf points gc b margin projection viewport_size
    cases h : calculate_fit tf points gc b margin projection viewport_size with
    | none => exact Or.inl rfl
    | some rf => exact Or.inr ⟨rf, rfl⟩

/-- Witness for C3 at concrete inputs: with the degenerate empty point list
the instrumented outer loop runs within its `200`-iteration budget, the
convergence signal returns after exactly one iteration, and the centering
loop runs within its `10`-iteration budget. -/
theorem C3_termination_witness :
    (fitLoopSteps tf0 [] Vec3F.zero idBasis persp0 (F.fin 1) none (F.fin 1)
      MAX_ITERATIONS ⟨F.fin 0, F.fin 0, F.fin 0, Vec3F.zero, F.inf⟩).2 ≤
      MAX_ITERATIONS ∧
    fitLoopSteps tf0 [] Vec3F.zero idBasis persp0 (F.fin 1) none (F.fin 1)
      (0 + 1) ⟨F.fin 0, F.fin 0, F.fin 0, Vec3F.zero, F.inf⟩ =
      ((F.fin 0, Vec3F.zero), 1) ∧
    (centeringGoSteps tf0 [] idBasis persp0 (F.fin 1) (F.fin 1)
      CENTERING_MAX_ITERATIONS Vec3F.zero).2 ≤ CENTERING_MAX_ITERATIONS := by
  refine ⟨(C3_termination.1 tf0 [] Vec3F.zero idBasis persp0 (F.fin 1) none
      (F.fin 1) MAX_ITERATIONS ⟨F.fin 0, F.fin 0, F.fin 0, Vec3F.zero,
        F.inf⟩).1,
    C3_termination.2.1 tf0 [] Vec3F.zero idBasis persp0 (F.fin 1) none
      (F.fin 1) 0 ⟨F.fin 0, F.fin 0, F.fin 0, Vec3F.zero, F.inf⟩
      (F.fin 0, Vec3F.zero) (by with_unfolding_all rfl),
    (C3_termination.2.2.1 tf0 [] idBasis persp0 (F.fin 1) (F.fin 1)
      CENTERING_MAX_ITERATIONS Vec3F.zero).1⟩

end POC
